import Mathlib

/-!
# rehosts: record parser and lookup table

A shallow embedding of `plugin/rehostsfile.go`.

* A Go `string` or `[]byte` holding valid UTF-8 is the list of its runes (`Str`).
* `net.IP` is the list of its bytes.
* A nil slice and an empty slice are both the empty list.
* The functions of the Go standard library that rest on Unicode tables or on a
  grammar of their own (`unicode`, `net.ParseIP`, `regexp`, `idna`) are the
  fields of `GoLib`; the program is embedded over an arbitrary `GoLib`, and
  `stdlib` is an executable instance used to run the program on concrete input.
* Log output (`log.Warningf`, `log.Debugf`) is not part of the state and is dropped.
-/

namespace Rehosts

/-! ## Data model -/

/-- A Go string (valid UTF-8) as the sequence of its runes. -/
abbrev Str := List Char

/-- The type `net.IP`: a slice of bytes, of length 4 or 16. -/
abbrev IP := List Nat

/-- The library functions called by the program whose behaviour is fixed by Unicode
tables or by a grammar outside the repository. -/
structure GoLib where
  /-- Rune map `unicode.ToLower`. -/
  ToLower : Char → Char
  /-- Rune map `unicode.ToUpper`. -/
  ToUpper : Char → Char
  /-- Rune class `unicode.IsLetter`. -/
  IsLetter : Char → Bool
  /-- Rune class `unicode.IsDigit`. -/
  IsDigit : Char → Bool
  /-- Function `net.ParseIP`; `none` is the nil result. -/
  ParseIP : Str → Option IP
  /-- Function `regexp.Compile`, the compiled expression being given by its
  `MatchString` method; `none` is a compile error. -/
  Compile : Str → Option (Str → Bool)
  /-- Function `idna.ToUnicode`; `none` is an error result. -/
  ToUnicode : Str → Option Str

/-- Single hosts file record that maps a matcher to IPs (v4 or v6). -/
structure RehostsFileRecord where
  Match : Str → Bool
  AddrV4 : List IP
  AddrV6 : List IP

/-- The table: the records and the file attributes kept for the reload check.
`mtime` is a point in time and `fsize` a byte count; the lock, the origins and
the options play no part in parsing and lookup. -/
structure RehostsFile where
  records : List RehostsFileRecord
  mtime : Int
  fsize : Int
  path : Str

/-! ## Library functions on strings -/

/-- Rune class `unicode.IsSpace` (the Unicode White_Space property). -/
def isSpace (c : Char) : Bool :=
  let n := c.toNat
  n == 9 || n == 10 || n == 11 || n == 12 || n == 13 || n == 32 ||
  n == 0x85 || n == 0xA0 || n == 0x1680 || (0x2000 ≤ n && n ≤ 0x200A) ||
  n == 0x2028 || n == 0x2029 || n == 0x202F || n == 0x205F || n == 0x3000

/-- The functions `bytes.TrimSpace` and `strings.TrimSpace`. -/
def TrimSpace (s : Str) : Str :=
  (s.dropWhile isSpace).rdropWhile isSpace

/-- The function `bytes.Fields`: the maximal runs of non-space runes. -/
def Fields (s : Str) : List Str :=
  (s.splitOnP isSpace).filter (fun f => !f.isEmpty)

/-- The functions `strings.ToLower` over a rune map. -/
def ToLower (L : GoLib) (s : Str) : Str := s.map L.ToLower

/-- The functions `strings.ToUpper` over a rune map. -/
def ToUpper (L : GoLib) (s : Str) : Str := s.map L.ToUpper

/-- Length of the UTF-8 encoding, in bytes. -/
def utf8Len (s : Str) : Nat := (s.map Char.utf8Size).sum

/-- Largest line, in bytes, that a `bufio.Scanner` with the default buffer
(`bufio.MaxScanTokenSize = 64 * 1024`) returns: the line and its terminator
have to fit in the buffer. -/
def maxLineLen : Nat := 64 * 1024 - 1

/-- The helper `dropCR` of `bufio.ScanLines`. -/
def dropCR (s : Str) : Str :=
  if s.getLast? = some '\r' then s.dropLast else s

/-- The segments between line feeds that `bufio.ScanLines` sees: the segment
after the last line feed is no line when it is empty. -/
def rawLines (text : Str) : List Str :=
  let segs := text.splitOn '\n'
  if segs.getLast? = some [] then segs.dropLast else segs

/-- The tokens returned by the successive calls of `scanner.Scan()` on a
`bufio.NewScanner(r)`: the lines of the text, without the line terminator,
up to the first line that does not fit in the buffer (where `Scan` returns
false with `bufio.ErrTooLong`). -/
def scanLines (text : Str) : List Str :=
  ((rawLines text).takeWhile (fun l => decide (utf8Len l ≤ maxLineLen))).map dropCR

/-- Method `net.IP.To4`; `none` is the nil result. -/
def To4 (ip : IP) : Option IP :=
  if ip.length = 4 then some ip
  else if ip.length = 16 ∧ (ip.take 10).all (fun b => b == 0) ∧
      ip.get? 10 = some 0xff ∧ ip.get? 11 = some 0xff then some (ip.drop 12)
  else none

/-! ## The program -/

/-- Source function `parseIP`. -/
def parseIP (L : GoLib) (addr : Str) : Option IP :=
  let addr := TrimSpace addr
  -- discard IPv6 zone
  let addr := addr.takeWhile (fun c => c != '%')
  L.ParseIP addr

/-- Source function `verifyWildcard`. -/
def verifyWildcard (L : GoLib) : Str → Bool
  | [] => true
  | c :: s =>
    if L.IsLetter c then verifyWildcard L s
    else if L.IsDigit c then verifyWildcard L s
    else if c == '*' || c == '.' || c == '-' || c == '_' then verifyWildcard L s
    else false

/-- The replacer `strings.NewReplacer(".", "\\.", "*", ".*")` of `parse`. -/
def wildcardReplacer (s : Str) : Str :=
  s.flatMap (fun c => if c == '.' then ['\\', '.'] else if c == '*' then ['.', '*'] else [c])

/-- The record built in `parse` from a parsed address: the address goes to
`AddrV4` when `ip.To4() != nil` and to `AddrV6` otherwise. -/
def newRecord (ip : IP) (m : Str → Bool) : RehostsFileRecord :=
  if (To4 ip).isSome then { Match := m, AddrV4 := [ip], AddrV6 := [] }
  else { Match := m, AddrV4 := [], AddrV6 := [ip] }

/-- One turn of the inner loop of `parse` (a host field of a line without `@`):
the record appended for the field, or `none` when the field is skipped. -/
def parseField (L : GoLib) (ip : IP) (fieldStr : Str) : Option RehostsFileRecord :=
  -- Check if addr is some kind of wildcard
  if fieldStr.contains '*' then
    if !verifyWildcard L fieldStr then none
    else
      let regexpStr := ToLower L (wildcardReplacer fieldStr)
      match L.Compile regexpStr with
      | none => none
      | some re => some (newRecord ip re)
  else
    let hostName := ToLower L fieldStr
    some (newRecord ip (fun str => hostName == str))

/-- The line as `parse` reads it: without the comment that starts at the first
`#` and without the surrounding white space. -/
def lineBody (scanned : Str) : Str :=
  TrimSpace (scanned.takeWhile (fun c => c != '#'))

/-- One turn of the outer loop of `parse`: the records appended for one
scanned line. -/
def parseLine (L : GoLib) (scanned : Str) : List RehostsFileRecord :=
  -- Remove all comments
  let line := lineBody scanned
  if line.isEmpty then []
  else if line.contains '@' then
    -- Regex mode
    let ipStr := line.takeWhile (fun c => c != '@')
    match parseIP L ipStr with
    | none => []
    | some ip =>
      let regexpStr := TrimSpace ((line.dropWhile (fun c => c != '@')).drop 1)
      match L.Compile regexpStr with
      | none => []
      | some re => [newRecord ip re]
  else
    match Fields line with
    | [] => []
    | ipStr :: hostFields =>
      match parseIP L ipStr with
      | none => []
      | some ip => hostFields.filterMap (parseField L ip)

/-- Source method `RehostsFile.parse`, on the content of the reader. -/
def parse (L : GoLib) (text : Str) : List RehostsFileRecord :=
  (scanLines text).flatMap (parseLine L)

/-- Source function `DeFQDNnIDNA`; `none` is an error result. -/
def DeFQDNnIDNA (L : GoLib) (host : Str) : Option Str :=
  if host.getLast? = some '.' then
    L.ToUnicode (ToLower L host.dropLast)
  else none

/-- The loop of `LookupStaticHostV4` over the records. -/
def lookupV4 (L : GoLib) (host : Str) : List RehostsFileRecord → List IP
  | [] => []
  | record :: rest =>
    match DeFQDNnIDNA L host with
    | none => []
    | some unicodeHost =>
      if record.Match unicodeHost && record.AddrV4.length != 0 then record.AddrV4
      else lookupV4 L host rest

/-- The loop of `LookupStaticHostV6` over the records. -/
def lookupV6 (L : GoLib) (host : Str) : List RehostsFileRecord → List IP
  | [] => []
  | record :: rest =>
    match DeFQDNnIDNA L host with
    | none => []
    | some unicodeHost =>
      if record.Match unicodeHost && record.AddrV6.length != 0 then record.AddrV6
      else lookupV6 L host rest

/-- Lookup host IPv4 records (source method `LookupStaticHostV4`). -/
def LookupStaticHostV4 (L : GoLib) (r : RehostsFile) (host : Str) : List IP :=
  lookupV4 L host r.records

/-- Lookup host IPv6 records (source method `LookupStaticHostV6`). -/
def LookupStaticHostV6 (L : GoLib) (r : RehostsFile) (host : Str) : List IP :=
  lookupV6 L host r.records

/-! ## An executable instance of the library -/

/-- Rune map `unicode.ToLower` on Basic Latin and on U+212A KELVIN SIGN; other
runes are left as they are. -/
def stdToLower (c : Char) : Char :=
  if 'A' ≤ c ∧ c ≤ 'Z' then Char.ofNat (c.toNat + 32)
  else if c = Char.ofNat 0x212A then 'k'
  else c

/-- Rune map `unicode.ToUpper` on Basic Latin and on U+017F LATIN SMALL LETTER
LONG S (whose upper case is `S`); other runes are left as they are. -/
def stdToUpper (c : Char) : Char :=
  if 'a' ≤ c ∧ c ≤ 'z' then Char.ofNat (c.toNat - 32)
  else if c = Char.ofNat 0x17F then 'S'
  else c

/-- Rune class `unicode.IsLetter` on Basic Latin, U+017F and U+212A. -/
def stdIsLetter (c : Char) : Bool :=
  ('a' ≤ c ∧ c ≤ 'z') || ('A' ≤ c ∧ c ≤ 'Z') || c = Char.ofNat 0x17F || c = Char.ofNat 0x212A

/-- Rune class `unicode.IsDigit` on Basic Latin. -/
def stdIsDigit (c : Char) : Bool := '0' ≤ c ∧ c ≤ '9'

/-- Value of a decimal digit. -/
def decDigit (c : Char) : Option Nat :=
  if '0' ≤ c ∧ c ≤ '9' then some (c.toNat - 48) else none

/-- Value of a hexadecimal digit. -/
def hexDigit (c : Char) : Option Nat :=
  if '0' ≤ c ∧ c ≤ '9' then some (c.toNat - 48)
  else if 'a' ≤ c ∧ c ≤ 'f' then some (c.toNat - 87)
  else if 'A' ≤ c ∧ c ≤ 'F' then some (c.toNat - 55)
  else none

/-- One field of a dotted IPv4 literal: one to three decimal digits, no
leading zero, value at most 255. -/
def ipv4Field (s : Str) : Option Nat :=
  if s.isEmpty || 3 < s.length || (1 < s.length && s.head? == some '0') then none
  else
    match s.mapM decDigit with
    | none => none
    | some ds =>
      let v := ds.foldl (fun acc d => acc * 10 + d) 0
      if v ≤ 255 then some v else none

/-- The four bytes of a dotted IPv4 literal. -/
def ipv4Bytes (s : Str) : Option (List Nat) :=
  match (s.splitOn '.').mapM ipv4Field with
  | some bs => if bs.length = 4 then some bs else none
  | none => none

/-- One group of an IPv6 literal: one to four hexadecimal digits, as two bytes. -/
def ipv6Group (s : Str) : Option (List Nat) :=
  if s.isEmpty || 4 < s.length then none
  else
    match s.mapM hexDigit with
    | none => none
    | some ds =>
      let v := ds.foldl (fun acc d => acc * 16 + d) 0
      some [v / 256, v % 256]

/-- The bytes of a colon-separated run of groups; when `tail` is set the last
group may be a dotted IPv4 literal. -/
def ipv6Groups (tail : Bool) (s : Str) : Option (List Nat) :=
  if s.isEmpty then some []
  else
    let gs := s.splitOn ':'
    let last := gs.getLast?.getD []
    if tail && last.contains '.' then
      match gs.dropLast.mapM ipv6Group, ipv4Bytes last with
      | some bs, some v4 => some (bs.flatten ++ v4)
      | _, _ => none
    else
      match gs.mapM ipv6Group with
      | some bs => some bs.flatten
      | none => none

/-- Splits a string at the first occurrence of `::`. -/
def splitEllipsis : Str → Option (Str × Str)
  | [] => none
  | [_] => none
  | a :: b :: s =>
    if a == ':' && b == ':' then some ([], s)
    else
      match splitEllipsis (b :: s) with
      | some (l, r) => some (a :: l, r)
      | none => none

/-- Function `net.ParseIP`: the 16-byte form of a dotted IPv4 literal or of an
IPv6 literal (groups of hexadecimal digits, at most one `::`, a dotted IPv4
literal allowed for the last four bytes); a zone is not accepted. The literal
is read as IPv4 when a dot comes before any colon. -/
def stdParseIP (s : Str) : Option IP :=
  if (s.takeWhile (fun c => c != ':')).contains '.' then
    match ipv4Bytes s with
    | some v4 => some (List.replicate 10 0 ++ [0xff, 0xff] ++ v4)
    | none => none
  else
    match splitEllipsis s with
    | none =>
      match ipv6Groups true s with
      | some bs => if bs.length = 16 then some bs else none
      | none => none
    | some (l, r) =>
      match ipv6Groups false l, ipv6Groups true r with
      | some bl, some br =>
        if bl.length + br.length ≤ 14 then
          some (bl ++ List.replicate (16 - bl.length - br.length) 0 ++ br)
        else none
      | _, _ => none

/-- Regular expressions of the modelled fragment of the `regexp` syntax. -/
inductive Re where
  | zero : Re
  | eps : Re
  | lit (c : Char) : Re
  | dot : Re
  | cat (a b : Re) : Re
  | alt (a b : Re) : Re
  | star (a : Re) : Re

namespace Re

/-- Whether the expression matches the empty string. -/
def nullable : Re → Bool
  | zero => false
  | eps => true
  | lit _ => false
  | dot => false
  | cat a b => a.nullable && b.nullable
  | alt a b => a.nullable || b.nullable
  | star _ => true

/-- The derivative of the expression by one rune; `.` matches any rune but a
line feed. -/
def deriv : Re → Char → Re
  | zero, _ => zero
  | eps, _ => zero
  | lit c, x => if x = c then eps else zero
  | dot, x => if x = '\n' then zero else eps
  | cat a b, x => if a.nullable then alt (cat (a.deriv x) b) (b.deriv x) else cat (a.deriv x) b
  | alt a b, x => alt (a.deriv x) (b.deriv x)
  | star a, x => cat (a.deriv x) (star a)

/-- Whether some initial segment of the string matches the expression. -/
def matchesHead : Re → Str → Bool
  | r, [] => r.nullable
  | r, x :: s => r.nullable || matchesHead (r.deriv x) s

/-- Method `MatchString`: whether the string contains any match of the
expression. -/
def search (r : Re) : Str → Bool
  | [] => r.nullable
  | x :: s => matchesHead r (x :: s) || search r s

end Re

/-- One open group of the pattern being read: the alternatives closed so far
and the items of the current alternative, both latest first. -/
structure Frame where
  alts : List Re
  items : List Re

/-- State of the reader of a pattern: the open groups, innermost first, whether
the last rune was a backslash, and how many repetition marks follow the last
item (0: none, 1: an operator, 2: an operator and the lazy mark). -/
structure Reader where
  stack : List Frame
  esc : Bool
  reps : Nat

/-- The expression of a sequence of items given latest first. -/
def seqOf (items : List Re) : Re := items.foldl (fun acc r => Re.cat r acc) Re.eps

/-- The expression of a group. -/
def groupOf (f : Frame) : Re := f.alts.foldl (fun acc r => Re.alt r acc) (seqOf f.items)

/-- Appends an item to the innermost open group. -/
def pushItem (st : Reader) (r : Re) : Option Reader :=
  match st.stack with
  | [] => none
  | f :: fs => some { stack := { f with items := r :: f.items } :: fs, esc := false, reps := 0 }

/-- Applies a repetition operator to the last item. -/
def repeatItem (st : Reader) (op : Re → Re) : Option Reader :=
  match st.stack with
  | { alts := alts, items := r :: items } :: fs =>
    if st.reps = 0 then
      some { stack := { alts := alts, items := op r :: items } :: fs, esc := false, reps := 1 }
    else none
  | _ => none

/-- Reads one rune of a pattern. -/
def readRune (st : Reader) (c : Char) : Option Reader :=
  if st.esc then
    if c.toNat < 128 ∧ ¬ c.isAlphanum then pushItem st (Re.lit c) else none
  else if c = '\\' then some { st with esc := true }
  else if c = '.' then pushItem st Re.dot
  else if c = '*' then repeatItem st Re.star
  else if c = '+' then repeatItem st (fun r => Re.cat r (Re.star r))
  else if c = '?' then
    if st.reps = 1 then some { st with reps := 2 }
    else repeatItem st (fun r => Re.alt r Re.eps)
  else if c = '(' then some { stack := { alts := [], items := [] } :: st.stack, esc := false, reps := 0 }
  else if c = ')' then
    match st.stack with
    | f :: g :: fs => pushItem { st with stack := g :: fs } (groupOf f)
    | _ => none
  else if c = '|' then
    match st.stack with
    | f :: fs => some { stack := { alts := seqOf f.items :: f.alts, items := [] } :: fs, esc := false, reps := 0 }
    | [] => none
  else if c = '[' ∨ c = '{' ∨ c = '^' ∨ c = '$' then none
  else pushItem st (Re.lit c)

/-- Reads a pattern of the fragment: literal runes, `\` before an ASCII
punctuation rune, `.`, the operators `*`, `+`, `?` (also lazy), `|` and groups
`( )`. Classes, anchors, counted repetition, flags and the escapes that are
letters or digits are outside the fragment and answer `none`. -/
def readPattern (p : Str) : Option Re :=
  match p.foldlM readRune { stack := [{ alts := [], items := [] }], esc := false, reps := 0 } with
  | some { stack := [f], esc := false, reps := _ } => some (groupOf f)
  | _ => none

/-- Function `regexp.Compile` on the fragment of `readPattern`, as the
`MatchString` method of the compiled expression. -/
def stdCompile (p : Str) : Option (Str → Bool) :=
  (readPattern p).map Re.search

/-- Value of a Punycode digit (`decodeDigit`). -/
def punyDigit (c : Char) : Option Nat :=
  if '0' ≤ c ∧ c ≤ '9' then some (c.toNat - 48 + 26)
  else if 'A' ≤ c ∧ c ≤ 'Z' then some (c.toNat - 65)
  else if 'a' ≤ c ∧ c ≤ 'z' then some (c.toNat - 97)
  else none

/-- The halving loop of the bias adaptation of RFC 3492. -/
def punyAdaptLoop : Nat → Nat → Nat → Nat
  | 0, delta, k => k + 36 * delta / (delta + 38)
  | fuel + 1, delta, k =>
    if delta > 455 then punyAdaptLoop fuel (delta / 35) (k + 36)
    else k + 36 * delta / (delta + 38)

/-- Bias adaptation of RFC 3492 (`adapt`). -/
def punyAdapt (delta numPoints : Nat) (firstTime : Bool) : Nat :=
  let delta := if firstTime then delta / 700 else delta / 2
  let delta := delta + delta / numPoints
  punyAdaptLoop 32 delta 0

/-- Reads one generalized variable-length integer: the new `i` and the rest of
the input, or `none` on a bad digit, a truncated input or a 32-bit overflow. -/
def punyInteger (bias : Nat) : Str → Nat → Nat → Nat → Option (Nat × Str)
  | [], _, _, _ => none
  | c :: s, i, w, k =>
    match punyDigit c with
    | none => none
    | some digit =>
      let i := i + digit * w
      if 2 ^ 31 ≤ i then none
      else
        let t := if k ≤ bias then 1 else if bias + 26 ≤ k then 26 else k - bias
        if digit < t then some (i, s)
        else if 2 ^ 31 ≤ w * (36 - t) then none
        else punyInteger bias s i (w * (36 - t)) (k + 36)

/-- The rune of a code point as `string(rune)` gives it. -/
def runeOf (n : Nat) : Char :=
  if h : n.isValidChar then Char.ofNatAux n h else Char.ofNat 0xFFFD

/-- The main loop of the Punycode decoder: inserts the code points encoded by
the digits into the output. -/
def punyLoop : Nat → Str → List Nat → Nat → Nat → Nat → Option (List Nat)
  | 0, _, _, _, _, _ => none
  | fuel + 1, s, output, i, n, bias =>
    if s.isEmpty then some output
    else
      match punyInteger bias s i 1 36 with
      | none => none
      | some (i', rest) =>
        let x := output.length + 1
        let bias := punyAdapt (i' - i) x (i == 0)
        let n := n + i' / x
        let i' := i' % x
        if 0x10FFFF < n then none
        else punyLoop fuel rest (output.take i' ++ n :: output.drop i') (i' + 1) n bias

/-- The Punycode decoder of package idna (`decode`), on the part of a label
after `xn--`. -/
def punyDecode (encoded : Str) : Option Str :=
  if encoded.isEmpty then some []
  else
    let tail := (encoded.reverse.takeWhile (fun c => c != '-')).reverse
    if ¬ encoded.contains '-' then
      (punyLoop (encoded.length + 1) encoded [] 0 128 72).map (fun o => o.map runeOf)
    else if tail.length + 1 = encoded.length then none
    else if tail.isEmpty then some encoded.dropLast
    else
      let basic := encoded.take (encoded.length - tail.length - 1)
      (punyLoop (encoded.length + 1) tail (basic.map Char.toNat) 0 128 72).map
        (fun o => o.map runeOf)

/-- Function `idna.ToUnicode` (the `Punycode` profile, which validates nothing):
each label that starts with `xn--` is replaced by its decoding, and a label
that does not decode is an error. -/
def stdToUnicode (s : Str) : Option Str :=
  ((s.splitOn '.').mapM (fun label =>
    if label.take 4 = "xn--".data then punyDecode (label.drop 4) else some label)).map
    (fun labels => ['.'].intercalate labels)

/-- The executable instance of the library. Its case maps and rune classes are
those of package unicode on Basic Latin (and on the two runes named at
`stdToLower` and `stdToUpper`), and its `Compile` is that of package regexp on
the fragment of `readPattern`. -/
def stdlib : GoLib where
  ToLower := stdToLower
  ToUpper := stdToUpper
  IsLetter := stdIsLetter
  IsDigit := stdIsDigit
  ParseIP := stdParseIP
  Compile := stdCompile
  ToUnicode := stdToUnicode

/-- The table of a freshly parsed file, as `newRehostsFile` of the tests builds it. -/
def newRehostsFile (L : GoLib) (file : Str) : RehostsFile :=
  { records := parse L file, mtime := 0, fsize := 0, path := [] }

/-- The file `rehostsExample` of the tests. -/
def rehostsExample : Str :=
  "\n127.0.0.1 gato\n::1 gato my-gato gato.int\n1.2.3.4 uwu\n::FFFF:1.2.3.4 uwu\n4.3.2.1 fallthrough.owo\n".data

/-! ## Reload -/

/-- What `os.Open(r.path)` and `file.Stat()` give at one call of `readRehosts`:
an error of `Open`, an error of `Stat`, or the modification time and the size
that `Stat` reports together with the content that the reader delivers. -/
inductive FileView where
  | openError : FileView
  | statError : FileView
  | file (modTime : Int) (size : Int) (content : Str) : FileView

/-- Source method `RehostsFile.readRehosts`, the file system being given by what
it shows at each path; the result is the table after the call. -/
def readRehosts (L : GoLib) (fs : Str → FileView) (r : RehostsFile) : RehostsFile :=
  match fs r.path with
  | FileView.openError => r
  | FileView.statError => r
  | FileView.file modTime size content =>
    -- Check if file has changed
    if r.mtime = modTime ∧ r.fsize = size then r
    else { r with records := parse L content, mtime := modTime, fsize := size }

/-! ## The slices in memory

The records hold slices of `net.IP` values, and a `net.IP` value is itself a
slice of bytes. To speak about what a caller can reach through a returned
slice, the arrays behind the slices are made explicit. -/

/-- Go memory as far as the address slices go: the byte arrays behind the
`net.IP` values and the arrays of `net.IP` values behind the `[]net.IP`
slices. An address is an index; a `net.IP` value is the address of its byte
array, a `[]net.IP` value is nil (`none`) or the address of its array. -/
structure Mem where
  bytes : List (List Nat)
  slices : List (List Nat)

/-- A record whose address slices live in memory. -/
structure MemRecord where
  Match : Str → Bool
  AddrV4 : Option Nat
  AddrV6 : Option Nat

namespace Mem

/-- Builtin `len(s)` of a `[]net.IP` value. -/
def len (m : Mem) : Option Nat → Nat
  | none => 0
  | some a => (m.slices.getD a []).length

/-- The bytes of a `net.IP` value. -/
def readIP (m : Mem) (p : Nat) : IP := m.bytes.getD p []

/-- The addresses, as byte sequences, seen through a `[]net.IP` value. -/
def read (m : Mem) : Option Nat → List IP
  | none => []
  | some a => (m.slices.getD a []).map m.readIP

/-- The statements `dst := make([]net.IP, len(src)); copy(dst, src)`: a new
array that holds the same `net.IP` values. -/
def copySlice (m : Mem) (src : Option Nat) : Option Nat × Mem :=
  (some m.slices.length,
    { m with slices := m.slices ++ [match src with | none => [] | some a => m.slices.getD a []] })

/-- The assignment `s[i] = v` of a `net.IP` value `v` by a holder of `s`. -/
def setElem (m : Mem) (s : Option Nat) (i v : Nat) : Mem :=
  match s with
  | none => m
  | some a => { m with slices := m.slices.set a ((m.slices.getD a []).set i v) }

/-- The assignment `s[i][j] = b` of a byte `b` by a holder of `s`. -/
def setByte (m : Mem) (s : Option Nat) (i j b : Nat) : Mem :=
  match s with
  | none => m
  | some a =>
    match (m.slices.getD a []).get? i with
    | none => m
    | some p => { m with bytes := m.bytes.set p ((m.bytes.getD p []).set j b) }

/-- The byte array behind the `net.IP` value that `net.ParseIP` returns: a new
array. -/
def allocIP (m : Mem) (ip : IP) : Nat × Mem :=
  (m.bytes.length, { m with bytes := m.bytes ++ [ip] })

/-- The statement `s = append(s, v)` on a nil slice `s`: a new array of one
`net.IP` value. -/
def appendOne (m : Mem) (v : Nat) : Option Nat × Mem :=
  (some m.slices.length, { m with slices := m.slices ++ [[v]] })

/-- The assignment `s[i] = v` of a `net.IP` value `v` that the caller holds
elsewhere, such as `net.IPv4zero`: its bytes have an array of their own. -/
def setElemIP (m : Mem) (s : Option Nat) (i : Nat) (v : IP) : Mem :=
  (m.allocIP v).2.setElem s i (m.allocIP v).1

/-- Memory `m2` comes from `m1` by allocations: arrays are only added. -/
def grows (m1 m2 : Mem) : Prop :=
  ∃ b s, m2.bytes = m1.bytes ++ b ∧ m2.slices = m1.slices ++ s

/-- The record that a record in memory stands for. -/
def load (m : Mem) (r : MemRecord) : RehostsFileRecord :=
  { Match := r.Match, AddrV4 := m.read r.AddrV4, AddrV6 := m.read r.AddrV6 }

end Mem

/-- The loop of `LookupStaticHostV4` on records in memory: the returned slice
and the memory after the call. -/
def lookupV4Mem (L : GoLib) (host : Str) (m : Mem) : List MemRecord → Option Nat × Mem
  | [] => (none, m)
  | record :: rest =>
    match DeFQDNnIDNA L host with
    | none => (none, m)
    | some unicodeHost =>
      if record.Match unicodeHost && m.len record.AddrV4 != 0 then m.copySlice record.AddrV4
      else lookupV4Mem L host m rest

/-- The loop of `LookupStaticHostV6` on records in memory: the returned slice
and the memory after the call. -/
def lookupV6Mem (L : GoLib) (host : Str) (m : Mem) : List MemRecord → Option Nat × Mem
  | [] => (none, m)
  | record :: rest =>
    match DeFQDNnIDNA L host with
    | none => (none, m)
    | some unicodeHost =>
      if record.Match unicodeHost && m.len record.AddrV6 != 0 then m.copySlice record.AddrV6
      else lookupV6Mem L host m rest

/-- The record built in `parse` from a parsed address whose `net.IP` value is
`p`: the value is appended to the nil `AddrV4` when `ip.To4() != nil` and to
the nil `AddrV6` otherwise. -/
def newRecordMem (m : Mem) (p : Nat) (ip : IP) (re : Str → Bool) : MemRecord × Mem :=
  if (To4 ip).isSome then
    ({ Match := re, AddrV4 := (m.appendOne p).1, AddrV6 := none }, (m.appendOne p).2)
  else ({ Match := re, AddrV4 := none, AddrV6 := (m.appendOne p).1 }, (m.appendOne p).2)

/-- One turn of the inner loop of `parse` in memory: the record of the turn is
built, around the one `net.IP` value `p` of the line, before the field is
looked at. -/
def parseFieldMem (L : GoLib) (m : Mem) (p : Nat) (ip : IP) (fieldStr : Str) :
    Option MemRecord × Mem :=
  if fieldStr.contains '*' then
    if !verifyWildcard L fieldStr then (none, (m.appendOne p).2)
    else
      match L.Compile (ToLower L (wildcardReplacer fieldStr)) with
      | none => (none, (m.appendOne p).2)
      | some re => (some (newRecordMem m p ip re).1, (newRecordMem m p ip re).2)
  else
    (some (newRecordMem m p ip (fun str => ToLower L fieldStr == str)).1,
      (newRecordMem m p ip (fun str => ToLower L fieldStr == str)).2)

/-- The inner loop of `parse` in memory, over the host fields of a line. -/
def parseFieldsMem (L : GoLib) (p : Nat) (ip : IP) : Mem → List Str → List MemRecord × Mem
  | m, [] => ([], m)
  | m, fieldStr :: rest =>
    match (parseFieldMem L m p ip fieldStr).1 with
    | none => parseFieldsMem L p ip (parseFieldMem L m p ip fieldStr).2 rest
    | some record =>
      (record :: (parseFieldsMem L p ip (parseFieldMem L m p ip fieldStr).2 rest).1,
        (parseFieldsMem L p ip (parseFieldMem L m p ip fieldStr).2 rest).2)

/-- One turn of the outer loop of `parse` in memory: `parseIP` is called once
for the line, and every record of the line holds the `net.IP` value that it
returned. -/
def parseLineMem (L : GoLib) (m : Mem) (scanned : Str) : List MemRecord × Mem :=
  let line := lineBody scanned
  if line.isEmpty then ([], m)
  else if line.contains '@' then
    match parseIP L (line.takeWhile (fun c => c != '@')) with
    | none => ([], m)
    | some ip =>
      match L.Compile (TrimSpace ((line.dropWhile (fun c => c != '@')).drop 1)) with
      | none => ([], (m.allocIP ip).2)
      | some re =>
        ([(newRecordMem (m.allocIP ip).2 (m.allocIP ip).1 ip re).1],
          (newRecordMem (m.allocIP ip).2 (m.allocIP ip).1 ip re).2)
  else
    match Fields line with
    | [] => ([], m)
    | ipStr :: hostFields =>
      match parseIP L ipStr with
      | none => ([], m)
      | some ip => parseFieldsMem L (m.allocIP ip).1 ip (m.allocIP ip).2 hostFields

/-- The outer loop of `parse` in memory, over the scanned lines. -/
def parseLinesMem (L : GoLib) : Mem → List Str → List MemRecord × Mem
  | m, [] => ([], m)
  | m, line :: rest =>
    ((parseLineMem L m line).1 ++ (parseLinesMem L (parseLineMem L m line).2 rest).1,
      (parseLinesMem L (parseLineMem L m line).2 rest).2)

/-- Source method `RehostsFile.parse` in memory: the records and the memory
after the call. -/
def parseMem (L : GoLib) (m : Mem) (text : Str) : List MemRecord × Mem :=
  parseLinesMem L m (scanLines text)

/-- A record in memory is allocated: its slices and the `net.IP` values in them
lie in the memory. -/
def allocated (m : Mem) (r : MemRecord) : Prop :=
  ∀ a, (r.AddrV4 = some a ∨ r.AddrV6 = some a) →
    a < m.slices.length ∧ ∀ p ∈ m.slices.getD a [], p < m.bytes.length

/-- The table of a parsed file, parsed in an empty memory. -/
def storedFile (L : GoLib) (file : Str) : List MemRecord × Mem :=
  parseMem L { bytes := [], slices := [] } file

/-- The variable `net.IPv4zero`. -/
def IPv4zero : IP := [0, 0, 0, 0, 0, 0, 0, 0, 0, 0, 0xff, 0xff, 0, 0, 0, 0]

/-- The addresses that the caller of `LookupStaticHostV4` sees through the
returned slice. -/
def readV4 (L : GoLib) (host : Str) (m : Mem) (recs : List MemRecord) : List IP :=
  (lookupV4Mem L host m recs).2.read (lookupV4Mem L host m recs).1

/-- The addresses that the caller of `LookupStaticHostV6` sees through the
returned slice. -/
def readV6 (L : GoLib) (host : Str) (m : Mem) (recs : List MemRecord) : List IP :=
  (lookupV6Mem L host m recs).2.read (lookupV6Mem L host m recs).1

/-! ## Readings of the specification -/

/-- The IP literal of a scanned line: what stands before the first `@`, or the
first field of a line without `@`. -/
def lineIPStr (scanned : Str) : Option Str :=
  if (lineBody scanned).contains '@' then some ((lineBody scanned).takeWhile (fun c => c != '@'))
  else (Fields (lineBody scanned)).head?

/-- The pattern of a scanned line with `@`: what stands after the first `@`,
without the surrounding white space (`regexpStr` in the regex mode of `parse`). -/
def lineRegexpStr (scanned : Str) : Str :=
  TrimSpace (((lineBody scanned).dropWhile (fun c => c != '@')).drop 1)

/-- The table that holds the records of one scanned line. -/
def lineTable (L : GoLib) (scanned : Str) : RehostsFile :=
  { records := parseLine L scanned, mtime := 0, fsize := 0, path := [] }

/-- The line made of an IP literal followed by host tokens, each after one
space. -/
def tokenLine (ip : Str) (tokens : List Str) : Str :=
  ip ++ (tokens.map (fun t => ' ' :: t)).flatten

/-- Whether a string can stand as a field of a line of host tokens: it is not
empty and holds no white space, no `#` and no `@`. -/
def plainField (t : Str) : Bool :=
  !t.isEmpty && t.all (fun c => !isSpace c && c != '#' && c != '@')

/-- The glob reading of a wildcard token in the words of the specification:
`*` stands for any sequence of runes, possibly empty, every other rune stands
for itself, and the name is matched as a whole. -/
def globMatch : Str → Str → Bool
  | [], n => n.isEmpty
  | p :: ps, n =>
    if p = '*' then n.tails.any (fun t => globMatch ps t)
    else
      match n with
      | [] => false
      | c :: rest => c == p && globMatch ps rest

/-- Whether the expression matches the whole string. -/
def Re.matchesAll (r : Re) (s : Str) : Bool := (s.foldl Re.deriv r).nullable

/-- The runes that `readRune` does not read as a literal. -/
def isMeta (c : Char) : Bool :=
  c = '\\' ∨ c = '.' ∨ c = '*' ∨ c = '+' ∨ c = '?' ∨ c = '(' ∨ c = ')' ∨ c = '|' ∨
  c = '[' ∨ c = '{' ∨ c = '^' ∨ c = '$'

/-- The item that the pattern of a wildcard token holds for one rune of the
token: a literal dot for `.`, any sequence for `*`, and the lower-cased rune as
a literal otherwise. -/
def wildItem (L : GoLib) (c : Char) : Re :=
  if c = '.' then Re.lit '.' else if c = '*' then Re.star Re.dot else Re.lit (L.ToLower c)

/-- The expression of the pattern of a wildcard token: the items of its runes
in sequence. -/
def wildRe (L : GoLib) (token : Str) : Re := seqOf (token.reverse.map (wildItem L))

/-- What the reading of the pattern of a wildcard token needs of the library:
the regexp package is the modelled one, lower-casing leaves the runes `\`, `.`,
`*`, `-` and `_` as they are, and the lower case of a letter or of a digit is not
a rune that a pattern reads as syntax. -/
def PatternLaws (L : GoLib) : Prop :=
  L.Compile = stdCompile ∧
  (L.ToLower '\\' = '\\' ∧ L.ToLower '.' = '.' ∧ L.ToLower '*' = '*' ∧
    L.ToLower '-' = '-' ∧ L.ToLower '_' = '_') ∧
  ∀ c, L.IsLetter c = true ∨ L.IsDigit c = true → isMeta (L.ToLower c) = false

/-! ## Lookup: first match wins -/

theorem lookupV4_eq_find (L : GoLib) (host n : Str) (hn : DeFQDNnIDNA L host = some n)
    (recs : List RehostsFileRecord) :
    lookupV4 L host recs =
      match recs.find? (fun rec => rec.Match n && rec.AddrV4.length != 0) with
      | some rec => rec.AddrV4
      | none => [] := by
  induction recs with
  | nil => rfl
  | cons rec rest ih =>
    simp only [lookupV4, hn, List.find?_cons]
    by_cases h : (rec.Match n && rec.AddrV4.length != 0) = true
    · simp [h]
    · simp only [h, if_false]
      simpa [h] using ih

theorem lookupV6_eq_find (L : GoLib) (host n : Str) (hn : DeFQDNnIDNA L host = some n)
    (recs : List RehostsFileRecord) :
    lookupV6 L host recs =
      match recs.find? (fun rec => rec.Match n && rec.AddrV6.length != 0) with
      | some rec => rec.AddrV6
      | none => [] := by
  induction recs with
  | nil => rfl
  | cons rec rest ih =>
    simp only [lookupV6, hn, List.find?_cons]
    by_cases h : (rec.Match n && rec.AddrV6.length != 0) = true
    · simp [h]
    · simp only [h, if_false]
      simpa [h] using ih

/-- C1: when the query name normalizes to `n`, `LookupStaticHostV4` returns the
`AddrV4` of the first record, in list order, whose matcher accepts `n` and whose
`AddrV4` is non-empty, and the empty sequence when there is none; a matching
record with an empty `AddrV4` is passed over. `LookupStaticHostV6` does the same
with `AddrV6`. -/
theorem lookup_first_match_wins (L : GoLib) (r : RehostsFile) (host n : Str)
    (hn : DeFQDNnIDNA L host = some n) :
    (LookupStaticHostV4 L r host =
      match r.records.find? (fun rec => rec.Match n && rec.AddrV4.length != 0) with
      | some rec => rec.AddrV4
      | none => []) ∧
    (LookupStaticHostV6 L r host =
      match r.records.find? (fun rec => rec.Match n && rec.AddrV6.length != 0) with
      | some rec => rec.AddrV6
      | none => []) :=
  ⟨lookupV4_eq_find L host n hn r.records, lookupV6_eq_find L host n hn r.records⟩

theorem lookup_first_match_wins_witness :
    DeFQDNnIDNA stdlib "gato.".data = some "gato".data ∧
    ((LookupStaticHostV4 stdlib (newRehostsFile stdlib rehostsExample) "gato.".data =
      match (newRehostsFile stdlib rehostsExample).records.find?
        (fun rec => rec.Match "gato".data && rec.AddrV4.length != 0) with
      | some rec => rec.AddrV4
      | none => []) ∧
    (LookupStaticHostV6 stdlib (newRehostsFile stdlib rehostsExample) "gato.".data =
      match (newRehostsFile stdlib rehostsExample).records.find?
        (fun rec => rec.Match "gato".data && rec.AddrV6.length != 0) with
      | some rec => rec.AddrV6
      | none => [])) :=
  ⟨by decide,
    lookup_first_match_wins stdlib (newRehostsFile stdlib rehostsExample) "gato.".data
      "gato".data (by decide)⟩

/-! ## Lookup: names that are not fully qualified -/

theorem DeFQDNnIDNA_eq_none (L : GoLib) (host : Str)
    (h : host = [] ∨ host.getLast? ≠ some '.') : DeFQDNnIDNA L host = none := by
  have h2 : host.getLast? ≠ some '.' := by
    rcases h with h | h
    · simp [h]
    · exact h
  simp [DeFQDNnIDNA, h2]

/-- C3: for a query name that is empty or does not end with `.`, both lookups
return the empty sequence, whatever the records of the table. -/
theorem lookup_not_fqdn (L : GoLib) (r : RehostsFile) (host : Str)
    (h : host = [] ∨ host.getLast? ≠ some '.') :
    LookupStaticHostV4 L r host = [] ∧ LookupStaticHostV6 L r host = [] := by
  have hn := DeFQDNnIDNA_eq_none L host h
  constructor
  · unfold LookupStaticHostV4
    cases r.records with
    | nil => rfl
    | cons rec rest => simp [lookupV4, hn]
  · unfold LookupStaticHostV6
    cases r.records with
    | nil => rfl
    | cons rec rest => simp [lookupV6, hn]

theorem lookup_not_fqdn_witness :
    ("uwu".data = [] ∨ "uwu".data.getLast? ≠ some '.') ∧
    LookupStaticHostV4 stdlib (newRehostsFile stdlib rehostsExample) "uwu.".data ≠ [] ∧
    (LookupStaticHostV4 stdlib (newRehostsFile stdlib rehostsExample) "uwu".data = [] ∧
     LookupStaticHostV6 stdlib (newRehostsFile stdlib rehostsExample) "uwu".data = []) :=
  ⟨by decide, by decide,
    lookup_not_fqdn stdlib (newRehostsFile stdlib rehostsExample) "uwu".data (by decide)⟩

/-! ## Lines -/

theorem TrimSpace_concat_space (s : Str) (c : Char) (hc : isSpace c = true) :
    TrimSpace (s ++ [c]) = TrimSpace s := by
  unfold TrimSpace
  rw [List.dropWhile_append]
  split
  · next h =>
    have h2 : s.dropWhile isSpace = [] := by simpa using h
    simp [h2, List.dropWhile, hc]
  · exact List.rdropWhile_concat_pos _ _ _ hc

theorem lineBody_concat_cr (xs : Str) : lineBody (xs ++ ['\r']) = lineBody xs := by
  unfold lineBody
  rw [List.takeWhile_append]
  split
  · next h =>
    have h2 : xs.takeWhile (fun c => c != '#') = xs := by
      have := List.takeWhile_append_dropWhile (fun c => c != '#') xs
      have hl : (xs.dropWhile (fun c => c != '#')).length = 0 := by
        have h3 := congrArg List.length this
        simp only [List.length_append] at h3
        omega
      rw [List.length_eq_zero] at hl
      rw [hl, List.append_nil] at this
      exact this
    rw [h2]
    have : List.takeWhile (fun c => c != '#') ['\r'] = ['\r'] := by decide
    rw [this]
    exact TrimSpace_concat_space _ _ (by decide)
  · rfl

theorem lineBody_dropCR (l : Str) : lineBody (dropCR l) = lineBody l := by
  unfold dropCR
  split
  · next h =>
    have h2 : l = l.dropLast ++ ['\r'] := by
      have := List.dropLast_append_getLast? '\r' (by simpa using h)
      exact this.symm
    conv_rhs => rw [h2]
    exact (lineBody_concat_cr _).symm
  · rfl

theorem parseLine_dropCR (L : GoLib) (l : Str) : parseLine L (dropCR l) = parseLine L l := by
  unfold parseLine
  rw [lineBody_dropCR]

theorem scanLines_of_fit (text : Str) (h : ∀ l ∈ rawLines text, utf8Len l ≤ maxLineLen) :
    scanLines text = (rawLines text).map dropCR := by
  unfold scanLines
  congr 1
  rw [List.takeWhile_eq_self_iff]
  intro l hl
  simpa using h l hl

theorem parse_of_fit (L : GoLib) (text : Str) (h : ∀ l ∈ rawLines text, utf8Len l ≤ maxLineLen) :
    parse L text = (rawLines text).flatMap (parseLine L) := by
  unfold parse
  rw [scanLines_of_fit text h, List.flatMap_map]
  congr 1
  funext l
  exact parseLine_dropCR L l

theorem rawLines_two (l1 l2 : Str) (h1 : '\n' ∉ l1) (h2 : '\n' ∉ l2) (hne : l2 ≠ []) :
    rawLines (l1 ++ '\n' :: l2) = [l1, l2] := by
  unfold rawLines
  have hs : (l1 ++ '\n' :: l2).splitOn '\n' = [l1, l2] := by
    unfold List.splitOn
    rw [List.splitOnP_first _ _ _ _ (by simp), List.splitOnP_eq_single]
    · intro x hx hxe
      simp only [beq_iff_eq] at hxe
      exact h2 (hxe ▸ hx)
    · intro x hx hxe
      simp only [beq_iff_eq] at hxe
      exact h1 (hxe ▸ hx)
  simp [hs, hne]

theorem scanLines_overlong (pre rest : Str) (h1 : '\n' ∉ pre) (hlen : maxLineLen < utf8Len pre) :
    scanLines (pre ++ '\n' :: rest) = [] := by
  unfold scanLines rawLines
  have hs : (pre ++ '\n' :: rest).splitOn '\n' = pre :: rest.splitOn '\n' := by
    unfold List.splitOn
    rw [List.splitOnP_first _ _ _ _ (by simp)]
    intro x hx hxe
    simp only [beq_iff_eq] at hxe
    exact h1 (hxe ▸ hx)
  have hne : rest.splitOn '\n' ≠ [] := List.splitOnP_ne_nil _ _
  obtain ⟨a, as, has⟩ := List.exists_cons_of_ne_nil hne
  simp only [hs, has]
  have hnot : ¬ utf8Len pre ≤ maxLineLen := by omega
  split <;> simp [List.dropLast, List.takeWhile, hnot]

/-! ## Records of a line -/

theorem newRecord_Match (ip : IP) (m : Str → Bool) : (newRecord ip m).Match = m := by
  unfold newRecord; split <;> rfl

theorem newRecord_v4 (ip : IP) (m : Str → Bool) (h : (To4 ip).isSome = true) :
    (newRecord ip m).AddrV4 = [ip] ∧ (newRecord ip m).AddrV6 = [] := by
  unfold newRecord; simp [h]

theorem newRecord_v6 (ip : IP) (m : Str → Bool) (h : (To4 ip).isSome = false) :
    (newRecord ip m).AddrV4 = [] ∧ (newRecord ip m).AddrV6 = [ip] := by
  unfold newRecord; simp [h]

theorem Fields_nil : Fields [] = [] := by decide

theorem lineBody_ne_nil_of_Fields (l f : Str) (fs : List Str) (h : Fields (lineBody l) = f :: fs) :
    (lineBody l).isEmpty = false := by
  cases hb : lineBody l with
  | nil => rw [hb, Fields_nil] at h; cases h
  | cons c cs => rfl

theorem lineBody_ne_nil_of_at (l : Str) (h : (lineBody l).contains '@' = true) :
    (lineBody l).isEmpty = false := by
  cases hb : lineBody l with
  | nil => rw [hb] at h; simp at h
  | cons c cs => rfl

theorem parseLine_fields (L : GoLib) (l ipStr : Str) (hostFields : List Str) (ip : IP)
    (hat : (lineBody l).contains '@' = false) (hf : Fields (lineBody l) = ipStr :: hostFields)
    (hip : parseIP L ipStr = some ip) :
    parseLine L l = hostFields.filterMap (parseField L ip) := by
  unfold parseLine
  simp only [lineBody_ne_nil_of_Fields l ipStr hostFields hf, hat, hf, hip, Bool.false_eq_true,
    if_false]

theorem parseLine_at (L : GoLib) (l : Str) (ip : IP) (re : Str → Bool)
    (hat : (lineBody l).contains '@' = true)
    (hip : parseIP L ((lineBody l).takeWhile (fun c => c != '@')) = some ip)
    (hre : L.Compile (TrimSpace (((lineBody l).dropWhile (fun c => c != '@')).drop 1)) = some re) :
    parseLine L l = [newRecord ip re] := by
  unfold parseLine
  simp only [lineBody_ne_nil_of_at l hat, hat, hip, hre, Bool.false_eq_true, if_false, if_true]

theorem parseField_exact (L : GoLib) (ip : IP) (t : Str) (h : t.contains '*' = false) :
    parseField L ip t = some (newRecord ip (fun str => ToLower L t == str)) := by
  unfold parseField
  rw [if_neg (by rw [h]; exact Bool.false_ne_true)]

theorem parseField_wild (L : GoLib) (ip : IP) (t : Str) (re : Str → Bool)
    (h : t.contains '*' = true) (hv : verifyWildcard L t = true)
    (hre : L.Compile (ToLower L (wildcardReplacer t)) = some re) :
    parseField L ip t = some (newRecord ip re) := by
  unfold parseField
  rw [if_pos h, if_neg (by rw [hv]; decide)]
  simp only [hre]

theorem mem_parseField (L : GoLib) (ip : IP) (t : Str) (r : RehostsFileRecord)
    (h : parseField L ip t = some r) : ∃ m, r = newRecord ip m := by
  unfold parseField at h
  split at h
  · split at h
    · cases h
    · dsimp only at h
      split at h
      · cases h
      · next re _ => exact ⟨re, (Option.some.inj h).symm⟩
  · exact ⟨_, (Option.some.inj h).symm⟩

theorem mem_parseLine (L : GoLib) (l : Str) (r : RehostsFileRecord) (h : r ∈ parseLine L l) :
    ∃ ipStr ip m, lineIPStr l = some ipStr ∧ parseIP L ipStr = some ip ∧ r = newRecord ip m := by
  unfold parseLine at h
  unfold lineIPStr
  dsimp only at h
  split at h
  · cases h
  · split at h
    · next hat =>
      rw [if_pos hat]
      split at h
      · cases h
      · next ip hip =>
        split at h
        · cases h
        · next re _ =>
          rw [List.mem_singleton] at h
          exact ⟨_, ip, re, rfl, hip, h⟩
    · next hat =>
      rw [if_neg hat]
      split at h
      · cases h
      · next ipStr hostFields hf =>
        split at h
        · cases h
        · next ip hip =>
          rw [List.mem_filterMap] at h
          obtain ⟨t, _, ht⟩ := h
          obtain ⟨m, hm⟩ := mem_parseField L ip t r ht
          exact ⟨ipStr, ip, m, by rw [hf]; rfl, hip, hm⟩

/-! ## The address of a record -/

/-- C7: every record returned by `parse` holds exactly one address: it comes
from a scanned line whose IP literal parses to an address `ip`, and it holds
`ip` alone in `AddrV4` when `ip.To4()` is not nil and `ip` alone in `AddrV6`
otherwise, the other sequence being empty. -/
theorem parse_record_one_address (L : GoLib) (text : Str) (r : RehostsFileRecord)
    (h : r ∈ parse L text) :
    r.AddrV4.length + r.AddrV6.length = 1 ∧
    ∃ line ∈ scanLines text, ∃ ipStr ip, lineIPStr line = some ipStr ∧
      parseIP L ipStr = some ip ∧
      (((To4 ip).isSome = true ∧ r.AddrV4 = [ip] ∧ r.AddrV6 = []) ∨
       ((To4 ip).isSome = false ∧ r.AddrV4 = [] ∧ r.AddrV6 = [ip])) := by
  unfold parse at h
  rw [List.mem_flatMap] at h
  obtain ⟨line, hline, hr⟩ := h
  obtain ⟨ipStr, ip, m, hs, hip, hrec⟩ := mem_parseLine L line r hr
  subst hrec
  cases h4 : (To4 ip).isSome with
  | true =>
    obtain ⟨h1, h2⟩ := newRecord_v4 ip m h4
    refine ⟨by rw [h1, h2]; rfl, line, hline, ipStr, ip, hs, hip, Or.inl ⟨h4, h1, h2⟩⟩
  | false =>
    obtain ⟨h1, h2⟩ := newRecord_v6 ip m h4
    refine ⟨by rw [h1, h2]; rfl, line, hline, ipStr, ip, hs, hip, Or.inr ⟨h4, h1, h2⟩⟩

theorem parse_record_one_address_witness :
    ((parse stdlib rehostsExample).get ⟨1, by decide⟩).AddrV4.length +
      ((parse stdlib rehostsExample).get ⟨1, by decide⟩).AddrV6.length = 1 ∧
    ∃ line ∈ scanLines rehostsExample, ∃ ipStr ip, lineIPStr line = some ipStr ∧
      parseIP stdlib ipStr = some ip ∧
      (((To4 ip).isSome = true ∧ ((parse stdlib rehostsExample).get ⟨1, by decide⟩).AddrV4 = [ip] ∧
          ((parse stdlib rehostsExample).get ⟨1, by decide⟩).AddrV6 = []) ∨
       ((To4 ip).isSome = false ∧ ((parse stdlib rehostsExample).get ⟨1, by decide⟩).AddrV4 = [] ∧
          ((parse stdlib rehostsExample).get ⟨1, by decide⟩).AddrV6 = [ip])) :=
  parse_record_one_address stdlib rehostsExample _ (List.get_mem _ _ _)

/-! ## Lines of host tokens -/

/-- One turn of the loop on a line of host tokens: for a scanned line without
`@` whose fields are an IP literal that parses to `ip` and host tokens none of which contains `*`, the turn of `parse`
for the line yields one record per token, in token order, each holding `ip`
alone, and the matcher of the record of a token accepts a name exactly when the
name equals the lower-cased token. -/
theorem parse_exact_tokens (L : GoLib) (line ipStr : Str) (tokens : List Str) (ip : IP)
    (hat : (lineBody line).contains '@' = false)
    (hf : Fields (lineBody line) = ipStr :: tokens)
    (hip : parseIP L ipStr = some ip)
    (hstar : ∀ t ∈ tokens, t.contains '*' = false) :
    (parseLine L line).length = tokens.length ∧
    List.Forall₂ (fun r t => r.AddrV4 ++ r.AddrV6 = [ip] ∧ r.AddrV4.length + r.AddrV6.length = 1 ∧
      ∀ n, r.Match n = true ↔ n = ToLower L t) (parseLine L line) tokens := by
  rw [parseLine_fields L line ipStr tokens ip hat hf hip]
  clear hf
  induction tokens with
  | nil => exact ⟨rfl, List.Forall₂.nil⟩
  | cons t ts ih =>
    have ht := parseField_exact L ip t (hstar t (List.mem_cons_self _ _))
    obtain ⟨ihl, ihf⟩ := ih (fun u hu => hstar u (List.mem_cons_of_mem _ hu))
    rw [List.filterMap_cons, ht]
    refine ⟨by simp [ihl], List.Forall₂.cons ⟨?_, ?_, ?_⟩ ihf⟩
    · cases h4 : (To4 ip).isSome with
      | true => obtain ⟨h1, h2⟩ := newRecord_v4 ip (fun str => ToLower L t == str) h4; rw [h1, h2]; rfl
      | false => obtain ⟨h1, h2⟩ := newRecord_v6 ip (fun str => ToLower L t == str) h4; rw [h1, h2]; rfl
    · cases h4 : (To4 ip).isSome with
      | true => obtain ⟨h1, h2⟩ := newRecord_v4 ip (fun str => ToLower L t == str) h4; rw [h1, h2]; rfl
      | false => obtain ⟨h1, h2⟩ := newRecord_v6 ip (fun str => ToLower L t == str) h4; rw [h1, h2]; rfl
    · intro n
      rw [newRecord_Match]
      simp only [beq_iff_eq]
      exact eq_comm

theorem parse_exact_tokens_witness :
    (parseLine stdlib "\t::1 gato My-Gato gato.int # three names".data).length = 3 ∧
    List.Forall₂ (fun r t => r.AddrV4 ++ r.AddrV6 = [[0, 0, 0, 0, 0, 0, 0, 0, 0, 0, 0, 0, 0, 0, 0, 1]] ∧
      r.AddrV4.length + r.AddrV6.length = 1 ∧
      ∀ n, r.Match n = true ↔ n = ToLower stdlib t)
      (parseLine stdlib "\t::1 gato My-Gato gato.int # three names".data)
      ["gato".data, "My-Gato".data, "gato.int".data] :=
  parse_exact_tokens stdlib "\t::1 gato My-Gato gato.int # three names".data "::1".data
    ["gato".data, "My-Gato".data, "gato.int".data] [0, 0, 0, 0, 0, 0, 0, 0, 0, 0, 0, 0, 0, 0, 0, 1]
    (by decide) (by decide) (by decide) (by decide)

/-! ## Order of the lines -/

theorem ne_nil_of_Fields (l f : Str) (fs : List Str) (h : Fields (lineBody l) = f :: fs) :
    l ≠ [] := by
  intro hl
  subst hl
  have : lineBody [] = [] := by decide
  rw [this, Fields_nil] at h
  cases h

theorem parse_two_lines (L : GoLib) (l1 l2 : Str) (h1 : '\n' ∉ l1) (h2 : '\n' ∉ l2)
    (hne : l2 ≠ []) (hl1 : utf8Len l1 ≤ maxLineLen) (hl2 : utf8Len l2 ≤ maxLineLen) :
    parse L (l1 ++ '\n' :: l2) = parseLine L l1 ++ parseLine L l2 := by
  have hr := rawLines_two l1 l2 h1 h2 hne
  rw [parse_of_fit L _ (by rw [hr]; intro l hl; simp at hl; rcases hl with rfl | rfl <;> assumption),
    hr]
  simp [List.flatMap]

theorem lookup_pair_first (L : GoLib) (q n : Str) (hq : DeFQDNnIDNA L q = some n)
    (a b : IP) (ma mb : Str → Bool) (hma : ma n = true) :
    (if (To4 a).isSome then LookupStaticHostV4 L else LookupStaticHostV6 L)
      { records := [newRecord a ma, newRecord b mb], mtime := 0, fsize := 0, path := [] } q = [a] := by
  cases h4 : (To4 a).isSome with
  | true =>
    obtain ⟨h1, _⟩ := newRecord_v4 a ma h4
    simp [LookupStaticHostV4, lookupV4, hq, newRecord_Match, hma, h1]
  | false =>
    obtain ⟨_, h2⟩ := newRecord_v6 a ma h4
    simp [LookupStaticHostV6, lookupV6, hq, newRecord_Match, hma, h2]

/-- C2: for a file of two lines of the same address family, one whose fields
are an IP literal and an exact host token and one whose fields are an IP
literal and a wildcard token, whose matchers both accept the normalized query
name, the lookup on the parsed file returns the address of the line that comes
first, in either order of the two lines. -/
theorem exact_wildcard_first_line_wins (L : GoLib) (l1 l2 ip1 ip2 exact wild q n : Str)
    (a1 a2 : IP)
    (h1n : '\n' ∉ l1) (h2n : '\n' ∉ l2)
    (h1len : utf8Len l1 ≤ maxLineLen) (h2len : utf8Len l2 ≤ maxLineLen)
    (h1at : (lineBody l1).contains '@' = false) (h2at : (lineBody l2).contains '@' = false)
    (h1f : Fields (lineBody l1) = [ip1, exact]) (h2f : Fields (lineBody l2) = [ip2, wild])
    (hip1 : parseIP L ip1 = some a1) (hip2 : parseIP L ip2 = some a2)
    (hfam : (To4 a1).isSome = (To4 a2).isSome)
    (hex : exact.contains '*' = false) (hw : wild.contains '*' = true)
    (hv : verifyWildcard L wild = true)
    (hq : DeFQDNnIDNA L q = some n)
    (hm1 : ToLower L exact = n)
    (hm2 : (L.Compile (ToLower L (wildcardReplacer wild))).map (fun re => re n) = some true) :
    (if (To4 a1).isSome then LookupStaticHostV4 L else LookupStaticHostV6 L)
      (newRehostsFile L (l1 ++ '\n' :: l2)) q = [a1] ∧
    (if (To4 a1).isSome then LookupStaticHostV4 L else LookupStaticHostV6 L)
      (newRehostsFile L (l2 ++ '\n' :: l1)) q = [a2] := by
  cases hre : L.Compile (ToLower L (wildcardReplacer wild)) with
  | none => rw [hre] at hm2; cases hm2
  | some re =>
    rw [hre] at hm2
    have hren : re n = true := by simpa using hm2
    have hp1 : parseLine L l1 = [newRecord a1 (fun str => ToLower L exact == str)] := by
      rw [parseLine_fields L l1 ip1 [exact] a1 h1at h1f hip1, List.filterMap_cons,
        parseField_exact L a1 exact hex]
      rfl
    have hp2 : parseLine L l2 = [newRecord a2 re] := by
      rw [parseLine_fields L l2 ip2 [wild] a2 h2at h2f hip2, List.filterMap_cons,
        parseField_wild L a2 wild re hw hv hre]
      rfl
    have hex1 : (fun str => ToLower L exact == str) n = true := by simp [hm1]
    unfold newRehostsFile
    rw [parse_two_lines L l1 l2 h1n h2n (ne_nil_of_Fields l2 ip2 [wild] h2f) h1len h2len,
      parse_two_lines L l2 l1 h2n h1n (ne_nil_of_Fields l1 ip1 [exact] h1f) h2len h1len,
      hp1, hp2]
    refine ⟨lookup_pair_first L q n hq a1 a2 _ re hex1, ?_⟩
    rw [hfam]
    exact lookup_pair_first L q n hq a2 a1 re _ hren

theorem exact_wildcard_first_line_wins_witness :
    (if (To4 [0, 0, 0, 0, 0, 0, 0, 0, 0, 0, 255, 255, 127, 0, 0, 1]).isSome
      then LookupStaticHostV4 stdlib else LookupStaticHostV6 stdlib)
      (newRehostsFile stdlib ("\t127.0.0.1 Google.com # exact".data ++
        '\n' :: "\t127.0.0.3   *google.com\r".data)) "GOOGLE.com.".data =
        [[0, 0, 0, 0, 0, 0, 0, 0, 0, 0, 255, 255, 127, 0, 0, 1]] ∧
    (if (To4 [0, 0, 0, 0, 0, 0, 0, 0, 0, 0, 255, 255, 127, 0, 0, 1]).isSome
      then LookupStaticHostV4 stdlib else LookupStaticHostV6 stdlib)
      (newRehostsFile stdlib ("\t127.0.0.3   *google.com\r".data ++
        '\n' :: "\t127.0.0.1 Google.com # exact".data)) "GOOGLE.com.".data =
        [[0, 0, 0, 0, 0, 0, 0, 0, 0, 0, 255, 255, 127, 0, 0, 3]] :=
  exact_wildcard_first_line_wins stdlib "\t127.0.0.1 Google.com # exact".data
    "\t127.0.0.3   *google.com\r".data "127.0.0.1".data "127.0.0.3".data "Google.com".data
    "*google.com".data "GOOGLE.com.".data "google.com".data
    [0, 0, 0, 0, 0, 0, 0, 0, 0, 0, 255, 255, 127, 0, 0, 1]
    [0, 0, 0, 0, 0, 0, 0, 0, 0, 0, 255, 255, 127, 0, 0, 3]
    (by decide) (by decide) (by decide) (by decide) (by decide) (by decide) (by decide)
    (by decide) (by decide) (by decide) (by decide) (by decide) (by decide) (by decide)
    (by decide) (by decide) (by decide)

/-! ## The file as a sequence of lines -/

theorem not_mem_of_mem_splitOn (a : Char) (xs l : Str) (h : l ∈ xs.splitOn a) : a ∉ l := by
  unfold List.splitOn at h
  induction xs generalizing l with
  | nil =>
    simp at h
    subst h
    simp
  | cons x xs ih =>
    rw [List.splitOnP_cons] at h
    split at h
    · rcases List.mem_cons.mp h with h | h
      · subst h; simp
      · exact ih l h
    · next hx =>
      cases hs : List.splitOnP (fun c => c == a) xs with
      | nil => exact absurd hs (List.splitOnP_ne_nil _ _)
      | cons y ys =>
        rw [hs] at h ih
        simp only [List.modifyHead_cons, List.mem_cons] at h
        rcases h with h | h
        · subst h
          have hy := ih y (List.mem_cons_self _ _)
          intro hmem
          rcases List.mem_cons.mp hmem with hm | hm
          · exact hx (by simp [hm])
          · exact hy hm
        · exact ih l (List.mem_cons_of_mem _ h)

theorem parseLine_nil (L : GoLib) : parseLine L [] = [] := by
  unfold parseLine
  have : lineBody [] = [] := by decide
  rw [this]
  rfl

theorem parse_single_line (L : GoLib) (l : Str) (hn : '\n' ∉ l) (hl : utf8Len l ≤ maxLineLen) :
    parse L l = parseLine L l := by
  have hs : l.splitOn '\n' = [l] := by
    unfold List.splitOn
    apply List.splitOnP_eq_single
    intro x hx hxe
    simp only [beq_iff_eq] at hxe
    exact hn (hxe ▸ hx)
  by_cases he : l = []
  · subst he
    rw [parseLine_nil]
    have : scanLines [] = [] := by decide
    unfold parse
    rw [this]
    rfl
  · have hr : rawLines l = [l] := by
      unfold rawLines
      simp [hs, he]
    rw [parse_of_fit L l (by rw [hr]; intro x hx; simp at hx; subst hx; exact hl), hr]
    simp [List.flatMap]

theorem rawLines_flatMap (L : GoLib) (text : Str) :
    (rawLines text).flatMap (parseLine L) = (text.splitOn '\n').flatMap (parseLine L) := by
  unfold rawLines
  dsimp only
  split
  · next h =>
    have h2 := List.dropLast_append_getLast? [] (by simpa using h)
    conv_rhs => rw [← h2]
    rw [List.flatMap_append]
    simp [List.flatMap, parseLine_nil]
  · rfl

theorem mem_rawLines (text l : Str) (h : l ∈ rawLines text) : l ∈ text.splitOn '\n' := by
  unfold rawLines at h
  dsimp only at h
  split at h
  · exact List.mem_of_mem_dropLast h
  · exact h

/-- When every line of the text fits the buffer of the scanner, `parse` returns
the concatenation, in line order, of the records it yields for each line taken
alone. -/
theorem parse_eq_lines_of_fit (L : GoLib) (text : Str)
    (h : ∀ l ∈ text.splitOn '\n', utf8Len l ≤ maxLineLen) :
    parse L text = (text.splitOn '\n').flatMap (fun l => parse L l) := by
  rw [parse_of_fit L text (fun l hl => h l (mem_rawLines text l hl)), rawLines_flatMap]
  unfold List.flatMap
  congr 1
  apply List.map_congr_left
  intro l hl
  exact (parse_single_line L l (not_mem_of_mem_splitOn '\n' text l hl) (h l hl)).symm

theorem parse_overlong (L : GoLib) (pre rest : Str) (h1 : '\n' ∉ pre)
    (hlen : maxLineLen < utf8Len pre) : parse L (pre ++ '\n' :: rest) = [] := by
  unfold parse
  rw [scanLines_overlong pre rest h1 hlen]
  rfl

theorem utf8Len_replicate_hash (k : Nat) : utf8Len (List.replicate k '#') = k := by
  unfold utf8Len
  rw [List.map_replicate, List.sum_replicate]
  have : Char.utf8Size '#' = 1 := by decide
  rw [this]
  simp

theorem parse_overlong_last (L : GoLib) (l : Str) (h1 : '\n' ∉ l)
    (hlen : maxLineLen < utf8Len l) : parse L l = [] := by
  have hs : l.splitOn '\n' = [l] := by
    unfold List.splitOn
    apply List.splitOnP_eq_single
    intro x hx hxe
    simp only [beq_iff_eq] at hxe
    exact h1 (hxe ▸ hx)
  have hne : l ≠ [] := by
    intro h
    subst h
    simp [utf8Len] at hlen
  have hnot : ¬ utf8Len l ≤ maxLineLen := by omega
  unfold parse scanLines rawLines
  simp [hs, hne, List.takeWhile, hnot]

theorem not_mem_replicate_hash (k : Nat) : '\n' ∉ List.replicate k '#' := by
  intro h
  have := List.eq_of_mem_replicate h
  revert this
  decide

theorem parse_replicate_hash (L : GoLib) (k : Nat) (hk : maxLineLen < k) (rest : Str) :
    parse L (List.replicate k '#') = [] ∧ parse L (List.replicate k '#' ++ '\n' :: rest) = [] :=
  ⟨parse_overlong_last L _ (not_mem_replicate_hash k) (by rw [utf8Len_replicate_hash]; exact hk),
   parse_overlong L _ rest (not_mem_replicate_hash k) (by rw [utf8Len_replicate_hash]; exact hk)⟩

/-- C6 (divergence): a comment line of 70000 bytes does not fit the buffer of the
scanner, `Scan` returns false and the loop of `parse` ends: the line
`1.2.3.4 uwu` that follows yields one record when taken alone, and after a short
comment line, but none after the long one, so `parse` is not the concatenation
of the records of the lines. -/
theorem parse_stops_at_overlong_line :
    (parse stdlib "1.2.3.4 uwu".data).length = 1 ∧
    (parse stdlib ('#' :: '\n' :: "1.2.3.4 uwu".data)).length = 1 ∧
    parse stdlib (List.replicate 70000 '#') = [] ∧
    parse stdlib (List.replicate 70000 '#' ++ '\n' :: "1.2.3.4 uwu".data) = [] :=
  ⟨by decide, by decide, parse_replicate_hash stdlib 70000 (by decide) "1.2.3.4 uwu".data⟩

/-! ## Lines with an explicit pattern -/

theorem lookup_single (L : GoLib) (q : Str) (ip : IP) (re : Str → Bool) :
    ((if (To4 ip).isSome then LookupStaticHostV4 L else LookupStaticHostV6 L)
      { records := [newRecord ip re], mtime := 0, fsize := 0, path := [] } q =
        match DeFQDNnIDNA L q with
        | none => []
        | some n => if re n = true then [ip] else []) := by
  cases h4 : (To4 ip).isSome with
  | true =>
    obtain ⟨h1, _⟩ := newRecord_v4 ip re h4
    cases hq : DeFQDNnIDNA L q with
    | none => simp [LookupStaticHostV4, lookupV4, hq]
    | some n =>
      cases hr : re n <;> simp [LookupStaticHostV4, lookupV4, hq, newRecord_Match, h1, hr]
  | false =>
    obtain ⟨_, h2⟩ := newRecord_v6 ip re h4
    cases hq : DeFQDNnIDNA L q with
    | none => simp [LookupStaticHostV6, lookupV6, hq]
    | some n =>
      cases hr : re n <;> simp [LookupStaticHostV6, lookupV6, hq, newRecord_Match, h2, hr]

/-- C10 (counterexample): with the line `1.2.3.4 @ xn--` the pattern matches the
query name `xn--mnchen-3ya.` without its trailing dot and lower-cased, yet the
lookup does not select the record, because the name is also decoded to Unicode
before matching; and with the line `1.2.3.4 @ a#b` the lookup of `a.` selects
the record although the pattern after the `@` does not match `a`, because the
pattern is cut at the `#`. -/
theorem regex_line_claim_fails :
    ¬ (LookupStaticHostV4 stdlib (lineTable stdlib "1.2.3.4 @ xn--".data) "xn--mnchen-3ya.".data ≠ [] ↔
        (stdlib.Compile "xn--".data).map
          (fun re => re (ToLower stdlib "xn--mnchen-3ya.".data.dropLast)) = some true) ∧
    ¬ (LookupStaticHostV4 stdlib (lineTable stdlib "1.2.3.4 @ a#b".data) "a.".data ≠ [] ↔
        (stdlib.Compile "a#b".data).map
          (fun re => re (ToLower stdlib "a.".data.dropLast)) = some true) := by
  constructor <;> decide

/-- C10 (amended): for a scanned line whose body (the line up to the first `#`,
trimmed) contains `@`, whose part before the first `@` parses to an address
`ip` and whose trimmed part after it, the pattern, compiles, the turn of
`parse` yields exactly one record, which holds `ip` alone, and the lookup of a
query name in the family of `ip` returns `ip` exactly when the name normalizes
(`DeFQDNnIDNA`: trailing dot removed, lower-cased, decoded to Unicode) to a
name that the compiled pattern matches, and nothing otherwise. -/
theorem regex_line_lookup (L : GoLib) (line : Str) (ip : IP)
    (hat : (lineBody line).contains '@' = true)
    (hip : parseIP L ((lineBody line).takeWhile (fun c => c != '@')) = some ip)
    (hc : (L.Compile (lineRegexpStr line)).isSome = true) :
    (parseLine L line).length = 1 ∧
    (∀ r ∈ parseLine L line, r.AddrV4 ++ r.AddrV6 = [ip]) ∧
    ∀ q,
      ((if (To4 ip).isSome then LookupStaticHostV4 L else LookupStaticHostV6 L)
          (lineTable L line) q = [ip] ↔
        ∃ n, DeFQDNnIDNA L q = some n ∧
          (L.Compile (lineRegexpStr line)).map (fun re => re n) = some true) ∧
      ((if (To4 ip).isSome then LookupStaticHostV4 L else LookupStaticHostV6 L)
          (lineTable L line) q ≠ [ip] →
        (if (To4 ip).isSome then LookupStaticHostV4 L else LookupStaticHostV6 L)
          (lineTable L line) q = []) := by
  cases hre : L.Compile (lineRegexpStr line) with
  | none => rw [hre] at hc; cases hc
  | some re =>
    have hp : parseLine L line = [newRecord ip re] := parseLine_at L line ip re hat hip hre
    refine ⟨by rw [hp]; rfl, ?_, ?_⟩
    · intro r hr
      rw [hp, List.mem_singleton] at hr
      subst hr
      cases h4 : (To4 ip).isSome with
      | true => obtain ⟨h1, h2⟩ := newRecord_v4 ip re h4; rw [h1, h2]; rfl
      | false => obtain ⟨h1, h2⟩ := newRecord_v6 ip re h4; rw [h1, h2]; rfl
    · intro q
      unfold lineTable
      rw [hp, lookup_single L q ip re]
      cases hq : DeFQDNnIDNA L q with
      | none => simp
      | some n => cases hr : re n <;> simp [hr]

theorem regex_line_lookup_witness :
    (parseLine stdlib "127.0.2.1 @ go+gle\\.com? # search".data).length = 1 ∧
    (∀ r ∈ parseLine stdlib "127.0.2.1 @ go+gle\\.com? # search".data,
      r.AddrV4 ++ r.AddrV6 = [[0, 0, 0, 0, 0, 0, 0, 0, 0, 0, 255, 255, 127, 0, 2, 1]]) ∧
    ∀ q,
      ((if (To4 [0, 0, 0, 0, 0, 0, 0, 0, 0, 0, 255, 255, 127, 0, 2, 1]).isSome
          then LookupStaticHostV4 stdlib else LookupStaticHostV6 stdlib)
          (lineTable stdlib "127.0.2.1 @ go+gle\\.com? # search".data) q =
            [[0, 0, 0, 0, 0, 0, 0, 0, 0, 0, 255, 255, 127, 0, 2, 1]] ↔
        ∃ n, DeFQDNnIDNA stdlib q = some n ∧
          (stdlib.Compile (lineRegexpStr "127.0.2.1 @ go+gle\\.com? # search".data)).map
            (fun re => re n) = some true) ∧
      ((if (To4 [0, 0, 0, 0, 0, 0, 0, 0, 0, 0, 255, 255, 127, 0, 2, 1]).isSome
          then LookupStaticHostV4 stdlib else LookupStaticHostV6 stdlib)
          (lineTable stdlib "127.0.2.1 @ go+gle\\.com? # search".data) q ≠
            [[0, 0, 0, 0, 0, 0, 0, 0, 0, 0, 255, 255, 127, 0, 2, 1]] →
        (if (To4 [0, 0, 0, 0, 0, 0, 0, 0, 0, 0, 255, 255, 127, 0, 2, 1]).isSome
          then LookupStaticHostV4 stdlib else LookupStaticHostV6 stdlib)
          (lineTable stdlib "127.0.2.1 @ go+gle\\.com? # search".data) q = []) :=
  regex_line_lookup stdlib "127.0.2.1 @ go+gle\\.com? # search".data
    [0, 0, 0, 0, 0, 0, 0, 0, 0, 0, 255, 255, 127, 0, 2, 1] (by decide) (by decide) (by decide)

/-! ## Case of the query name -/

theorem lookupV4_congr (L : GoLib) (h1 h2 : Str) (h : DeFQDNnIDNA L h1 = DeFQDNnIDNA L h2)
    (recs : List RehostsFileRecord) : lookupV4 L h1 recs = lookupV4 L h2 recs := by
  induction recs with
  | nil => rfl
  | cons r rs ih => simp only [lookupV4, h, ih]

theorem lookupV6_congr (L : GoLib) (h1 h2 : Str) (h : DeFQDNnIDNA L h1 = DeFQDNnIDNA L h2)
    (recs : List RehostsFileRecord) : lookupV6 L h1 recs = lookupV6 L h2 recs := by
  induction recs with
  | nil => rfl
  | cons r rs ih => simp only [lookupV6, h, ih]

theorem DeFQDNnIDNA_map (L : GoLib) (f : Char → Char) (h : Str) (hdot : f '.' = '.')
    (hfq : h.getLast? = some '.') (hf : ∀ c ∈ h, L.ToLower (f c) = L.ToLower c) :
    DeFQDNnIDNA L (h.map f) = DeFQDNnIDNA L h := by
  unfold DeFQDNnIDNA
  have h1 : (h.map f).getLast? = some '.' := by
    rw [List.getLast?_map, hfq]
    simp [hdot]
  rw [if_pos h1, if_pos hfq]
  congr 1
  unfold ToLower
  rw [← List.map_dropLast, List.map_map]
  apply List.map_congr_left
  intro c hc
  exact hf c (List.mem_of_mem_dropLast hc)

/-- C4 (counterexample): with the line `1.2.3.4 s`, the lookup of the name `ſ.`
(U+017F LATIN SMALL LETTER LONG S) is empty, while the lookup of its upper-cased
form `S.` returns the address. -/
theorem upper_case_claim_fails :
    LookupStaticHostV4 stdlib (newRehostsFile stdlib "1.2.3.4 s".data) [Char.ofNat 0x17F, '.'] ≠
    LookupStaticHostV4 stdlib (newRehostsFile stdlib "1.2.3.4 s".data)
      (ToUpper stdlib [Char.ofNat 0x17F, '.']) := by
  decide

/-- C4 (amended): for a fully-qualified query name `h`, when lower-casing keeps
the dot and is idempotent on the runes of `h`, both lookups return the same
result for `h` and for the lower-cased form of `h`; when moreover upper-casing
keeps the dot and lower-casing the upper-cased runes of `h` gives their lower
case, they return the same result for the upper-cased form of `h` too. -/
theorem lookup_case_insensitive (L : GoLib) (r : RehostsFile) (h : Str)
    (hfq : h.getLast? = some '.')
    (hdot : L.ToLower '.' = '.')
    (hidem : ∀ c ∈ h, L.ToLower (L.ToLower c) = L.ToLower c) :
    (LookupStaticHostV4 L r (ToLower L h) = LookupStaticHostV4 L r h ∧
     LookupStaticHostV6 L r (ToLower L h) = LookupStaticHostV6 L r h) ∧
    (L.ToUpper '.' = '.' → (∀ c ∈ h, L.ToLower (L.ToUpper c) = L.ToLower c) →
      LookupStaticHostV4 L r (ToUpper L h) = LookupStaticHostV4 L r h ∧
      LookupStaticHostV6 L r (ToUpper L h) = LookupStaticHostV6 L r h) := by
  have hl := DeFQDNnIDNA_map L L.ToLower h hdot hfq hidem
  refine ⟨⟨lookupV4_congr L _ _ hl r.records, lookupV6_congr L _ _ hl r.records⟩, ?_⟩
  intro hdotU hup
  have hu := DeFQDNnIDNA_map L L.ToUpper h hdotU hfq hup
  exact ⟨lookupV4_congr L _ _ hu r.records, lookupV6_congr L _ _ hu r.records⟩

theorem lookup_case_insensitive_witness :
    LookupStaticHostV4 stdlib (newRehostsFile stdlib rehostsExample) "UwU.".data ≠ [] ∧
    (LookupStaticHostV4 stdlib (newRehostsFile stdlib rehostsExample) (ToLower stdlib "UwU.".data) =
        LookupStaticHostV4 stdlib (newRehostsFile stdlib rehostsExample) "UwU.".data ∧
      LookupStaticHostV6 stdlib (newRehostsFile stdlib rehostsExample) (ToLower stdlib "UwU.".data) =
        LookupStaticHostV6 stdlib (newRehostsFile stdlib rehostsExample) "UwU.".data) ∧
    (LookupStaticHostV4 stdlib (newRehostsFile stdlib rehostsExample) (ToUpper stdlib "UwU.".data) =
        LookupStaticHostV4 stdlib (newRehostsFile stdlib rehostsExample) "UwU.".data ∧
      LookupStaticHostV6 stdlib (newRehostsFile stdlib rehostsExample) (ToUpper stdlib "UwU.".data) =
        LookupStaticHostV6 stdlib (newRehostsFile stdlib rehostsExample) "UwU.".data) :=
  ⟨by decide,
    (lookup_case_insensitive stdlib (newRehostsFile stdlib rehostsExample) "UwU.".data
      (by decide) (by decide) (by decide)).1,
    (lookup_case_insensitive stdlib (newRehostsFile stdlib rehostsExample) "UwU.".data
      (by decide) (by decide) (by decide)).2 (by decide) (by decide)⟩

/-! ## Wildcard tokens -/

/-- C9 (divergence): the pattern built from the token `*.uwu` is matched anywhere
in the name, so the record of the line `1.2.3.4 *.uwu` is returned for the query
name `a.uwu.com.`, which the token read as a glob over the whole name does not
accept; the names of the specification are treated as it says. -/
theorem wildcard_matches_inside_name :
    globMatch "*.uwu".data "a.uwu.com".data = false ∧
    LookupStaticHostV4 stdlib (newRehostsFile stdlib "1.2.3.4 *.uwu".data) "a.uwu.com.".data =
      [[0, 0, 0, 0, 0, 0, 0, 0, 0, 0, 255, 255, 1, 2, 3, 4]] ∧
    LookupStaticHostV4 stdlib (newRehostsFile stdlib "1.2.3.4 *.owo.uwu".data) "ouo.owo.uwu.".data =
      [[0, 0, 0, 0, 0, 0, 0, 0, 0, 0, 255, 255, 1, 2, 3, 4]] ∧
    LookupStaticHostV4 stdlib (newRehostsFile stdlib "1.2.3.4 *.owo.uwu".data)
      "ucu.ouo.owo.uwu.".data = [[0, 0, 0, 0, 0, 0, 0, 0, 0, 0, 255, 255, 1, 2, 3, 4]] ∧
    LookupStaticHostV4 stdlib (newRehostsFile stdlib "1.2.3.4 *.owo.uwu".data) "owo.uwu.".data = [] := by
  decide

/-! ## The returned slice and the table -/

theorem Mem.read_length (m : Mem) (s : Option Nat) : (m.read s).length = m.len s := by
  cases s with
  | none => rfl
  | some a => simp [Mem.read, Mem.len]

theorem Mem.read_copySlice (m : Mem) (s : Option Nat) :
    (m.copySlice s).2.read (m.copySlice s).1 = m.read s := by
  cases s with
  | none => simp [Mem.copySlice, Mem.read, List.getD_eq_getElem?_getD]
  | some a =>
    simp only [Mem.copySlice, Mem.read, List.getD_eq_getElem?_getD]
    rw [List.getElem?_append_right (Nat.le_refl _)]
    simp only [Nat.sub_self, List.getElem?_cons_zero, Option.getD_some]
    rfl

/-- The addresses seen through the slice returned by the lookup on records in
memory are those returned by the lookup on the records that they stand for. -/
theorem lookupV4Mem_read (L : GoLib) (host : Str) (m : Mem) (recs : List MemRecord) :
    readV4 L host m recs = lookupV4 L host (recs.map m.load) := by
  unfold readV4
  induction recs with
  | nil => rfl
  | cons r rs ih =>
    simp only [lookupV4Mem, lookupV4, List.map_cons]
    cases hq : DeFQDNnIDNA L host with
    | none => rfl
    | some n =>
      simp only [Mem.load, Mem.read_length]
      split
      · exact Mem.read_copySlice m r.AddrV4
      · exact ih

/-- The slice returned by the lookup is nil, the memory being as before, or a
new array behind the arrays of the memory before the call. -/
theorem lookupV4Mem_fresh (L : GoLib) (host : Str) (m : Mem) (recs : List MemRecord) :
    ((lookupV4Mem L host m recs).1 = none ∧ (lookupV4Mem L host m recs).2 = m) ∨
    ((lookupV4Mem L host m recs).1 = some m.slices.length ∧
      (lookupV4Mem L host m recs).2.bytes = m.bytes ∧
      ∃ arr, (lookupV4Mem L host m recs).2.slices = m.slices ++ [arr]) := by
  induction recs with
  | nil => exact Or.inl ⟨rfl, rfl⟩
  | cons r rs ih =>
    simp only [lookupV4Mem]
    cases hq : DeFQDNnIDNA L host with
    | none => exact Or.inl ⟨rfl, rfl⟩
    | some n =>
      dsimp only
      split
      · exact Or.inr ⟨rfl, rfl, _, rfl⟩
      · exact ih

theorem Mem.read_setElem_fresh (m : Mem) (arr : List Nat) (i v a : Nat) (ha : a < m.slices.length) :
    (Mem.setElem { bytes := m.bytes, slices := m.slices ++ [arr] } (some m.slices.length) i v).read
      (some a) = m.read (some a) := by
  simp only [Mem.setElem, Mem.read, Mem.readIP, List.getD_eq_getElem?_getD]
  rw [List.getElem?_set_ne (by omega), List.getElem?_append_left ha]
  rfl

/-- An assignment `s[i] = v` through the slice `s` returned by a lookup leaves
every record of the table as it was. -/
theorem setElem_leaves_table (L : GoLib) (host : Str) (m : Mem) (recs : List MemRecord)
    (hwf : ∀ r ∈ recs, ∀ a, (r.AddrV4 = some a ∨ r.AddrV6 = some a) → a < m.slices.length)
    (i v : Nat) (r : MemRecord) (hr : r ∈ recs) :
    ((lookupV4Mem L host m recs).2.setElem (lookupV4Mem L host m recs).1 i v).load r = m.load r := by
  rcases lookupV4Mem_fresh L host m recs with ⟨h1, h2⟩ | ⟨h1, h2, arr, h3⟩
  · rw [h1, h2]; rfl
  · have hm : (lookupV4Mem L host m recs).2 = { bytes := m.bytes, slices := m.slices ++ [arr] } := by
      cases hx : (lookupV4Mem L host m recs).2 with
      | mk b s =>
        rw [hx] at h2 h3
        simp only at h2 h3
        rw [h2, h3]
    rw [h1, hm]
    have key : ∀ s : Option Nat, (∀ a, s = some a → a < m.slices.length) →
        (Mem.setElem { bytes := m.bytes, slices := m.slices ++ [arr] }
          (some m.slices.length) i v).read s = m.read s := by
      intro s hs
      cases s with
      | none => rfl
      | some a => exact Mem.read_setElem_fresh m arr i v a (hs a rfl)
    unfold Mem.load
    rw [key r.AddrV4 (fun a ha => hwf r hr a (Or.inl ha)),
      key r.AddrV6 (fun a ha => hwf r hr a (Or.inr ha))]

/-- After an assignment `s[i] = v` through the slice `s` returned by
`LookupStaticHostV4`, the lookup of the same name returns the addresses it
returned before. -/
theorem lookup_after_setElem (L : GoLib) (host : Str) (m : Mem) (recs : List MemRecord)
    (hwf : ∀ r ∈ recs, ∀ a, (r.AddrV4 = some a ∨ r.AddrV6 = some a) → a < m.slices.length)
    (i v : Nat) :
    readV4 L host ((lookupV4Mem L host m recs).2.setElem (lookupV4Mem L host m recs).1 i v) recs =
      readV4 L host m recs := by
  rw [lookupV4Mem_read, lookupV4Mem_read]
  congr 1
  apply List.map_congr_left
  intro r hr
  exact setElem_leaves_table L host m recs hwf i v r hr

theorem lookupV6Mem_read (L : GoLib) (host : Str) (m : Mem) (recs : List MemRecord) :
    readV6 L host m recs = lookupV6 L host (recs.map m.load) := by
  unfold readV6
  induction recs with
  | nil => rfl
  | cons r rs ih =>
    simp only [lookupV6Mem, lookupV6, List.map_cons]
    cases hq : DeFQDNnIDNA L host with
    | none => rfl
    | some n =>
      simp only [Mem.load, Mem.read_length]
      split
      · exact Mem.read_copySlice m r.AddrV6
      · exact ih

/-- C5 (divergence): on the table of the file `127.0.0.1 owo` the lookup of `owo.`
returns a slice `s` that holds 127.0.0.1. After the assignment
`s[0] = net.IPv4zero` the caller sees 0.0.0.0 through `s` and the next lookup
still returns 127.0.0.1, but after the assignment `s[0][15] = 9` it returns
127.0.0.9: the copy made by the lookup shares the bytes of the addresses with
the table. The same holds of `LookupStaticHostV6` on the file `beba::1234 uwu`;
and on the file `127.0.0.1 owo uwu` the assignment through the result for `owo.`
also changes the address returned for `uwu.`, the records of one line holding
the same `net.IP` value. -/
theorem returned_slice_shares_bytes :
    readV4 stdlib "owo.".data (storedFile stdlib "127.0.0.1 owo".data).2
      (storedFile stdlib "127.0.0.1 owo".data).1 =
        [[0, 0, 0, 0, 0, 0, 0, 0, 0, 0, 255, 255, 127, 0, 0, 1]] ∧
    Mem.read
      (Mem.setElemIP
        (lookupV4Mem stdlib "owo.".data (storedFile stdlib "127.0.0.1 owo".data).2
          (storedFile stdlib "127.0.0.1 owo".data).1).2
        (lookupV4Mem stdlib "owo.".data (storedFile stdlib "127.0.0.1 owo".data).2
          (storedFile stdlib "127.0.0.1 owo".data).1).1 0 IPv4zero)
      (lookupV4Mem stdlib "owo.".data (storedFile stdlib "127.0.0.1 owo".data).2
        (storedFile stdlib "127.0.0.1 owo".data).1).1 = [IPv4zero] ∧
    readV4 stdlib "owo.".data
      (Mem.setElemIP
        (lookupV4Mem stdlib "owo.".data (storedFile stdlib "127.0.0.1 owo".data).2
          (storedFile stdlib "127.0.0.1 owo".data).1).2
        (lookupV4Mem stdlib "owo.".data (storedFile stdlib "127.0.0.1 owo".data).2
          (storedFile stdlib "127.0.0.1 owo".data).1).1 0 IPv4zero)
      (storedFile stdlib "127.0.0.1 owo".data).1 =
        [[0, 0, 0, 0, 0, 0, 0, 0, 0, 0, 255, 255, 127, 0, 0, 1]] ∧
    readV4 stdlib "owo.".data
      (Mem.setByte
        (lookupV4Mem stdlib "owo.".data (storedFile stdlib "127.0.0.1 owo".data).2
          (storedFile stdlib "127.0.0.1 owo".data).1).2
        (lookupV4Mem stdlib "owo.".data (storedFile stdlib "127.0.0.1 owo".data).2
          (storedFile stdlib "127.0.0.1 owo".data).1).1 0 15 9)
      (storedFile stdlib "127.0.0.1 owo".data).1 =
        [[0, 0, 0, 0, 0, 0, 0, 0, 0, 0, 255, 255, 127, 0, 0, 9]] ∧
    readV6 stdlib "uwu.".data (storedFile stdlib "beba::1234 uwu".data).2
      (storedFile stdlib "beba::1234 uwu".data).1 =
        [[0xbe, 0xba, 0, 0, 0, 0, 0, 0, 0, 0, 0, 0, 0, 0, 0x12, 0x34]] ∧
    readV6 stdlib "uwu.".data
      (Mem.setByte
        (lookupV6Mem stdlib "uwu.".data (storedFile stdlib "beba::1234 uwu".data).2
          (storedFile stdlib "beba::1234 uwu".data).1).2
        (lookupV6Mem stdlib "uwu.".data (storedFile stdlib "beba::1234 uwu".data).2
          (storedFile stdlib "beba::1234 uwu".data).1).1 0 0 0)
      (storedFile stdlib "beba::1234 uwu".data).1 =
        [[0, 0xba, 0, 0, 0, 0, 0, 0, 0, 0, 0, 0, 0, 0, 0x12, 0x34]] ∧
    readV4 stdlib "uwu.".data
      (Mem.setByte
        (lookupV4Mem stdlib "owo.".data (storedFile stdlib "127.0.0.1 owo uwu".data).2
          (storedFile stdlib "127.0.0.1 owo uwu".data).1).2
        (lookupV4Mem stdlib "owo.".data (storedFile stdlib "127.0.0.1 owo uwu".data).2
          (storedFile stdlib "127.0.0.1 owo uwu".data).1).1 0 15 9)
      (storedFile stdlib "127.0.0.1 owo uwu".data).1 =
        [[0, 0, 0, 0, 0, 0, 0, 0, 0, 0, 255, 255, 127, 0, 0, 9]] := by
  refine ⟨by decide, by decide, by decide, by decide, by decide, by decide, by decide⟩

/-! ## Reload -/

/-- C11: when the modification time and the size of the readable file equal the
stored `mtime` and `fsize`, `readRehosts` leaves the table as it is; and on any
table and any file system, `readRehosts` called twice in a row gives the table
that one call gives. -/
theorem readRehosts_unchanged_file (L : GoLib) (fs : Str → FileView) (r : RehostsFile)
    (content : Str) (h : fs r.path = FileView.file r.mtime r.fsize content) :
    readRehosts L fs r = r ∧
    ∀ (fs2 : Str → FileView) (r2 : RehostsFile),
      readRehosts L fs2 (readRehosts L fs2 r2) = readRehosts L fs2 r2 := by
  constructor
  · unfold readRehosts
    rw [h]
    simp
  · intro fs2 r2
    cases hv : fs2 r2.path with
    | openError =>
      have h1 : readRehosts L fs2 r2 = r2 := by unfold readRehosts; rw [hv]
      rw [h1, h1]
    | statError =>
      have h1 : readRehosts L fs2 r2 = r2 := by unfold readRehosts; rw [hv]
      rw [h1, h1]
    | file modTime size content2 =>
      by_cases hc : r2.mtime = modTime ∧ r2.fsize = size
      · have h1 : readRehosts L fs2 r2 = r2 := by
          unfold readRehosts; rw [hv]; simp only [hc, and_self, if_true]
        rw [h1, h1]
      · have h1 : readRehosts L fs2 r2 =
            { r2 with records := parse L content2, mtime := modTime, fsize := size } := by
          unfold readRehosts; rw [hv]; simp only [hc, if_false]
        rw [h1]
        unfold readRehosts
        simp only [hv, and_self, if_true]

theorem readRehosts_unchanged_file_witness :
    readRehosts stdlib (fun _ => FileView.file 7 11 "1.2.3.5 uwu".data)
        { records := parse stdlib "1.2.3.4 uwu".data, mtime := 7, fsize := 11, path := "hosts".data } =
      { records := parse stdlib "1.2.3.4 uwu".data, mtime := 7, fsize := 11, path := "hosts".data } ∧
    ∀ (fs2 : Str → FileView) (r2 : RehostsFile),
      readRehosts stdlib fs2 (readRehosts stdlib fs2 r2) = readRehosts stdlib fs2 r2 :=
  readRehosts_unchanged_file stdlib (fun _ => FileView.file 7 11 "1.2.3.5 uwu".data)
    { records := parse stdlib "1.2.3.4 uwu".data, mtime := 7, fsize := 11, path := "hosts".data }
    "1.2.3.5 uwu".data rfl

/-- C12 (counterexample): the table holds the records of `1.2.3.4 uwu`, read
from a file of 11 bytes modified at time 7; the content is changed to
`1.2.3.5 uwu`, of the same size, the modification time being the same; after
`readRehosts` the table still answers 1.2.3.4 for `uwu.`, so its records are not
those of the new content. -/
theorem reload_claim_fails :
    (readRehosts stdlib (fun _ => FileView.file 7 11 "1.2.3.5 uwu".data)
      { records := parse stdlib "1.2.3.4 uwu".data, mtime := 7, fsize := 11,
        path := "hosts".data }).records ≠ parse stdlib "1.2.3.5 uwu".data := by
  intro h
  have h2 := congrArg (lookupV4 stdlib "uwu.".data) h
  revert h2
  decide

/-- C12 (amended): when the readable file's modification time or size differs
from the stored `mtime` or `fsize`, the table after `readRehosts` holds the
records of `parse` on the file's content; and in every case the stored `mtime`
and `fsize` after the call are the file's modification time and size. -/
theorem readRehosts_changed_file (L : GoLib) (fs : Str → FileView) (r : RehostsFile)
    (modTime size : Int) (content : Str) (h : fs r.path = FileView.file modTime size content) :
    ((r.mtime ≠ modTime ∨ r.fsize ≠ size) → (readRehosts L fs r).records = parse L content) ∧
    (readRehosts L fs r).mtime = modTime ∧ (readRehosts L fs r).fsize = size := by
  unfold readRehosts
  rw [h]
  by_cases hc : r.mtime = modTime ∧ r.fsize = size
  · simp only [hc, and_self, if_true, and_true]
    intro hne
    rcases hne with hne | hne
    · exact absurd rfl hne
    · exact absurd rfl hne
  · simp only [hc, if_false, and_self, and_true]
    intro _
    trivial

theorem readRehosts_changed_file_witness :
    (readRehosts stdlib (fun _ => FileView.file 8 11 "1.2.3.5 uwu".data)
      { records := parse stdlib "1.2.3.4 uwu".data, mtime := 7, fsize := 11,
        path := "hosts".data }).records = parse stdlib "1.2.3.5 uwu".data ∧
    (readRehosts stdlib (fun _ => FileView.file 8 11 "1.2.3.5 uwu".data)
      { records := parse stdlib "1.2.3.4 uwu".data, mtime := 7, fsize := 11,
        path := "hosts".data }).mtime = 8 ∧
    (readRehosts stdlib (fun _ => FileView.file 8 11 "1.2.3.5 uwu".data)
      { records := parse stdlib "1.2.3.4 uwu".data, mtime := 7, fsize := 11,
        path := "hosts".data }).fsize = 11 :=
  ⟨(readRehosts_changed_file stdlib (fun _ => FileView.file 8 11 "1.2.3.5 uwu".data)
      { records := parse stdlib "1.2.3.4 uwu".data, mtime := 7, fsize := 11, path := "hosts".data }
      8 11 "1.2.3.5 uwu".data rfl).1 (Or.inl (by decide)),
   (readRehosts_changed_file stdlib (fun _ => FileView.file 8 11 "1.2.3.5 uwu".data)
      { records := parse stdlib "1.2.3.4 uwu".data, mtime := 7, fsize := 11, path := "hosts".data }
      8 11 "1.2.3.5 uwu".data rfl).2⟩

/-- C13: when the file at `path` cannot be opened or its metadata cannot be read,
`readRehosts` returns the table as it is, so every later lookup returns what it
returned before the call. -/
theorem readRehosts_unreadable (L : GoLib) (fs : Str → FileView) (r : RehostsFile)
    (h : fs r.path = FileView.openError ∨ fs r.path = FileView.statError) :
    readRehosts L fs r = r ∧
    ∀ host, LookupStaticHostV4 L (readRehosts L fs r) host = LookupStaticHostV4 L r host ∧
      LookupStaticHostV6 L (readRehosts L fs r) host = LookupStaticHostV6 L r host := by
  have h1 : readRehosts L fs r = r := by
    unfold readRehosts
    rcases h with h | h <;> rw [h]
  rw [h1]
  exact ⟨rfl, fun _ => ⟨rfl, rfl⟩⟩

theorem readRehosts_unreadable_witness :
    readRehosts stdlib (fun _ => FileView.openError) (newRehostsFile stdlib rehostsExample) =
      newRehostsFile stdlib rehostsExample ∧
    ∀ host,
      LookupStaticHostV4 stdlib
          (readRehosts stdlib (fun _ => FileView.openError) (newRehostsFile stdlib rehostsExample))
          host = LookupStaticHostV4 stdlib (newRehostsFile stdlib rehostsExample) host ∧
      LookupStaticHostV6 stdlib
          (readRehosts stdlib (fun _ => FileView.openError) (newRehostsFile stdlib rehostsExample))
          host = LookupStaticHostV6 stdlib (newRehostsFile stdlib rehostsExample) host :=
  readRehosts_unreadable stdlib (fun _ => FileView.openError) (newRehostsFile stdlib rehostsExample)
    (Or.inl rfl)

/-! ## The zone of an IP literal -/

theorem rdropWhile_append_cons (p : Char → Bool) (xs ys : Str) (c : Char) (hc : p c = false) :
    (xs ++ c :: ys).rdropWhile p = xs ++ c :: ys.rdropWhile p := by
  unfold List.rdropWhile
  rw [List.reverse_append, List.reverse_cons, List.append_assoc, List.dropWhile_append]
  split
  · next h =>
    have h2 : List.dropWhile p ys.reverse = [] := by simpa using h
    simp [h2, List.dropWhile, hc]
  · simp

theorem dropWhile_append_cons (p : Char → Bool) (xs ys : Str) (c : Char) (hc : p c = false) :
    (xs ++ c :: ys).dropWhile p = xs.dropWhile p ++ c :: ys := by
  rw [List.dropWhile_append]
  split
  · next h =>
    have h2 : List.dropWhile p xs = [] := by simpa using h
    simp [h2, List.dropWhile, hc]
  · rfl

theorem TrimSpace_append_percent (a z : Str) :
    TrimSpace (a ++ '%' :: z) = a.dropWhile isSpace ++ '%' :: z.rdropWhile isSpace := by
  unfold TrimSpace
  rw [dropWhile_append_cons isSpace a z '%' (by decide),
    rdropWhile_append_cons isSpace _ z '%' (by decide)]

theorem takeWhile_percent (x y : Str) (hx : '%' ∉ x) :
    (x ++ '%' :: y).takeWhile (fun c => c != '%') = x := by
  rw [List.takeWhile_append_of_pos]
  · simp
  · intro c hc
    have : c ≠ '%' := fun h => hx (h ▸ hc)
    simpa using this

theorem takeWhile_no_percent (x : Str) (hx : '%' ∉ x) :
    x.takeWhile (fun c => c != '%') = x := by
  rw [List.takeWhile_eq_self_iff]
  intro c hc
  have : c ≠ '%' := fun h => hx (h ▸ hc)
  simpa using this

/-- What `parseIP` hands to `net.ParseIP` for a literal with a zone: the part
before the `%` without its leading white space. -/
theorem parseIP_zone (L : GoLib) (a z : Str) (ha : '%' ∉ a) :
    parseIP L (a ++ '%' :: z) = L.ParseIP (a.dropWhile isSpace) := by
  unfold parseIP
  dsimp only
  rw [TrimSpace_append_percent, takeWhile_percent]
  intro h
  exact ha ((List.dropWhile_suffix isSpace).subset h)

theorem TrimSpace_of_last (a : Str) (h : ∀ c, a.getLast? = some c → isSpace c = false) :
    TrimSpace a = a.dropWhile isSpace := by
  unfold TrimSpace
  rw [List.rdropWhile_eq_self_iff]
  intro hl
  obtain ⟨t, ht⟩ := List.dropWhile_suffix (l := a) isSpace
  have hlast : a.getLast? = some ((a.dropWhile isSpace).getLast hl) := by
    conv_lhs => rw [← ht]
    rw [List.getLast?_append_of_ne_nil _ hl, List.getLast?_eq_getLast _ hl]
  have := h _ hlast
  simp [this]

/-- C14 (counterexample): the white space before the `%` is not removed, so
`::1 %eth0` does not parse, while `::1 ` parses to the loopback address. -/
theorem zone_claim_fails :
    parseIP stdlib ("::1 ".data ++ "%".data ++ "eth0".data) ≠ parseIP stdlib "::1 ".data := by
  decide

/-- C14 (amended): for every string `a` that contains no `%` and does not end in
white space and every string `z`, `parseIP (a ++ "%" ++ z)` equals `parseIP a`. -/
theorem parseIP_discards_zone (L : GoLib) (a z : Str) (ha : '%' ∉ a)
    (hlast : ∀ c, a.getLast? = some c → isSpace c = false) :
    parseIP L (a ++ "%".data ++ z) = parseIP L a := by
  have h1 : a ++ "%".data ++ z = a ++ '%' :: z := by simp
  rw [h1, parseIP_zone L a z ha]
  unfold parseIP
  dsimp only
  rw [TrimSpace_of_last a hlast, takeWhile_no_percent]
  intro h
  exact ha ((List.dropWhile_suffix isSpace).subset h)

theorem parseIP_discards_zone_witness :
    parseIP stdlib (" fe80::1".data ++ "%".data ++ "eth0 ".data) = parseIP stdlib " fe80::1".data ∧
    parseIP stdlib " fe80::1".data =
      some [0xfe, 0x80, 0, 0, 0, 0, 0, 0, 0, 0, 0, 0, 0, 0, 0, 1] :=
  ⟨parseIP_discards_zone stdlib " fe80::1".data "eth0 ".data (by decide) (by decide), by decide⟩

/-! ## Comments and blank lines -/

theorem takeWhile_idem (p : Char → Bool) (l : Str) :
    (l.takeWhile p).takeWhile p = l.takeWhile p := by
  rw [List.takeWhile_eq_self_iff]
  intro c hc
  exact (List.mem_takeWhile_imp hc)

theorem TrimSpace_blank (s : Str) (h : s.all isSpace = true) : TrimSpace s = [] := by
  unfold TrimSpace
  have : s.dropWhile isSpace = [] := by
    rw [List.dropWhile_eq_nil_iff]
    intro c hc
    exact List.all_eq_true.mp h c hc
  rw [this]
  rfl

/-- One turn of the loop and the comment: the records that the turn of `parse`
yields for a scanned line are those
it yields for the part of the line before the first `#`, wherever the `#`
stands, and a line whose part before the first `#` is empty or white space only
yields no record. -/
theorem comment_is_cut (L : GoLib) (line : Str) :
    parseLine L line = parseLine L (line.takeWhile (fun c => c != '#')) ∧
    (if (line.takeWhile (fun c => c != '#')).all isSpace then parseLine L line else []) = [] := by
  constructor
  · unfold parseLine lineBody
    rw [takeWhile_idem]
  · split
    · next h =>
      unfold parseLine lineBody
      rw [TrimSpace_blank _ h]
      rfl
    · rfl

/-! ## The family of an address -/

theorem To4_mapped (v4 : List Nat) (h : v4.length = 4) :
    (To4 (List.replicate 10 0 ++ [0xff, 0xff] ++ v4)).isSome = true := by
  match v4, h with
  | [a, b, c, d], _ => simp [To4, List.replicate]

theorem ipv4Bytes_length (s : Str) (v4 : List Nat) (h : ipv4Bytes s = some v4) :
    v4.length = 4 := by
  unfold ipv4Bytes at h
  split at h
  · next bs _ =>
    split at h
    · next hl => cases h; exact hl
    · cases h
  · cases h

/-- A literal that `net.ParseIP` reads as dotted IPv4 parses to an IPv4-mapped
address. -/
theorem stdParseIP_dotted (s : Str) (ip : IP)
    (hd : (s.takeWhile (fun c => c != ':')).contains '.' = true)
    (h : stdParseIP s = some ip) : (To4 ip).isSome = true := by
  unfold stdParseIP at h
  rw [if_pos hd] at h
  split at h
  · next v4 hv =>
    cases h
    exact To4_mapped v4 (ipv4Bytes_length s v4 hv)
  · cases h

theorem splitOn_pair (g d : Str) (hg : ':' ∉ g) (hd : ':' ∉ d) :
    (g ++ ':' :: d).splitOn ':' = [g, d] := by
  unfold List.splitOn
  rw [List.splitOnP_first _ _ _ _ (by simp), List.splitOnP_eq_single]
  · intro x hx hxe
    simp only [beq_iff_eq] at hxe
    exact hd (hxe ▸ hx)
  · intro x hx hxe
    simp only [beq_iff_eq] at hxe
    exact hg (hxe ▸ hx)

/-- A literal `::g:d` whose group `g` is `ffff` and whose last part `d` is
dotted parses to an IPv4-mapped address. -/
theorem stdParseIP_mapped_form (g d : Str) (ip : IP) (hg : ':' ∉ g) (hgne : g ≠ [])
    (hgv : ipv6Group g = some [0xff, 0xff]) (hd : ':' ∉ d) (hdot : d.contains '.' = true)
    (h : stdParseIP (':' :: ':' :: (g ++ ':' :: d)) = some ip) : (To4 ip).isSome = true := by
  unfold stdParseIP at h
  have h0 : ((':' :: ':' :: (g ++ ':' :: d)).takeWhile (fun c => c != ':')).contains '.' = false := by
    simp [List.takeWhile]
  rw [if_neg (by rw [h0]; exact Bool.false_ne_true)] at h
  have hsp : splitEllipsis (':' :: ':' :: (g ++ ':' :: d)) = some ([], g ++ ':' :: d) := by
    obtain ⟨c, cs, hc⟩ := List.exists_cons_of_ne_nil hgne
    subst hc
    simp [splitEllipsis]
  have hl : ipv6Groups false [] = some [] := by decide
  have hne : (g ++ ':' :: d).isEmpty = false := by
    cases g <;> rfl
  have hr : ipv6Groups true (g ++ ':' :: d) = (ipv4Bytes d).map (fun v4 => [0xff, 0xff] ++ v4) := by
    unfold ipv6Groups
    rw [if_neg (by rw [hne]; exact Bool.false_ne_true)]
    simp only [splitOn_pair g d hg hd, List.getLast?_cons_cons, List.getLast?_singleton,
      Option.getD_some, Bool.true_and, hdot, if_true, List.dropLast_cons₂, List.dropLast_single,
      List.mapM_cons, List.mapM_nil, hgv]
    cases ipv4Bytes d <;> rfl
  rw [hsp] at h
  simp only [hl, hr] at h
  cases hv : ipv4Bytes d with
  | none => rw [hv] at h; simp at h
  | some v4 =>
    have hlen := ipv4Bytes_length d v4 hv
    rw [hv] at h
    simp only [Option.map_some', List.length_nil, List.length_append, List.length_cons,
      hlen] at h
    simp at h
    subst h
    have := To4_mapped v4 hlen
    simpa using this

/-- The all-hex spelling `::ffff:102:304` of the IPv4-mapped address of 1.2.3.4
is treated like `::ffff:1.2.3.4`: the record of the line `::ffff:102:304 uwu`
holds the address in `AddrV4`. -/
theorem mapped_hex_literal_is_v4 :
    stdParseIP "::ffff:102:304".data = some [0, 0, 0, 0, 0, 0, 0, 0, 0, 0, 255, 255, 1, 2, 3, 4] ∧
    LookupStaticHostV6 stdlib (newRehostsFile stdlib "::ffff:102:304 uwu".data) "uwu.".data = [] ∧
    LookupStaticHostV4 stdlib (newRehostsFile stdlib "::ffff:102:304 uwu".data) "uwu.".data =
      [[0, 0, 0, 0, 0, 0, 0, 0, 0, 0, 255, 255, 1, 2, 3, 4]] := by
  decide

/-- C15: every record that the turn of `parse` yields for a scanned line whose
IP literal parses to the address `ip` holds `ip` in `AddrV4`, with `AddrV6`
empty, when `ip` is IPv4-mapped (`ip.To4() != nil`), and in `AddrV6`, with
`AddrV4` empty, otherwise; a dotted IPv4 literal and a literal of the form
`::ffff:a.b.c.d` parse to an IPv4-mapped address; and with the line
`::FFFF:1.2.3.4 uwu` the V6 lookup of `uwu.` is empty. -/
theorem record_family (L : GoLib) (line lit : Str) (ip : IP) (r : RehostsFileRecord)
    (hlit : lineIPStr line = some lit) (hip : parseIP L lit = some ip)
    (hr : r ∈ parseLine L line) :
    (((To4 ip).isSome = true → r.AddrV4 = [ip] ∧ r.AddrV6 = []) ∧
     ((To4 ip).isSome = false → r.AddrV4 = [] ∧ r.AddrV6 = [ip])) ∧
    (∀ s a, (s.takeWhile (fun c => c != ':')).contains '.' = true → stdlib.ParseIP s = some a →
      (To4 a).isSome = true) ∧
    (∀ d a, ':' ∉ d → d.contains '.' = true →
      (stdlib.ParseIP ("::ffff:".data ++ d) = some a ∨ stdlib.ParseIP ("::FFFF:".data ++ d) = some a) →
      (To4 a).isSome = true) ∧
    LookupStaticHostV6 stdlib (newRehostsFile stdlib "::FFFF:1.2.3.4 uwu".data) "uwu.".data = [] := by
  refine ⟨?_, fun s a hd h => stdParseIP_dotted s a hd h, ?_, by decide⟩
  · obtain ⟨ipStr, ip2, m, hs, hip2, hrec⟩ := mem_parseLine L line r hr
    rw [hlit] at hs
    cases hs
    rw [hip] at hip2
    cases hip2
    subst hrec
    exact ⟨fun h4 => newRecord_v4 ip m h4, fun h4 => newRecord_v6 ip m h4⟩
  · intro d a hd hdot h
    rcases h with h | h
    · exact stdParseIP_mapped_form "ffff".data d a (by decide) (by decide) (by decide) hd hdot h
    · exact stdParseIP_mapped_form "FFFF".data d a (by decide) (by decide) (by decide) hd hdot h

theorem record_family_witness :
    ((parseLine stdlib "::FFFF:1.2.3.4 uwu".data).get ⟨0, by decide⟩).AddrV4 =
      [[0, 0, 0, 0, 0, 0, 0, 0, 0, 0, 255, 255, 1, 2, 3, 4]] ∧
    ((parseLine stdlib "::FFFF:1.2.3.4 uwu".data).get ⟨0, by decide⟩).AddrV6 = [] ∧
    ((parseLine stdlib "1234::cDEf owo".data).get ⟨0, by decide⟩).AddrV4 = [] ∧
    ((parseLine stdlib "1234::cDEf owo".data).get ⟨0, by decide⟩).AddrV6 =
      [[0x12, 0x34, 0, 0, 0, 0, 0, 0, 0, 0, 0, 0, 0, 0, 0xcd, 0xef]] :=
  ⟨((record_family stdlib "::FFFF:1.2.3.4 uwu".data "::FFFF:1.2.3.4".data
      [0, 0, 0, 0, 0, 0, 0, 0, 0, 0, 255, 255, 1, 2, 3, 4] _ (by decide) (by decide)
      (List.get_mem _ _ _)).1.1 (by decide)).1,
   ((record_family stdlib "::FFFF:1.2.3.4 uwu".data "::FFFF:1.2.3.4".data
      [0, 0, 0, 0, 0, 0, 0, 0, 0, 0, 255, 255, 1, 2, 3, 4] _ (by decide) (by decide)
      (List.get_mem _ _ _)).1.1 (by decide)).2,
   ((record_family stdlib "1234::cDEf owo".data "1234::cDEf".data
      [0x12, 0x34, 0, 0, 0, 0, 0, 0, 0, 0, 0, 0, 0, 0, 0xcd, 0xef] _ (by decide) (by decide)
      (List.get_mem _ _ _)).1.2 (by decide)).1,
   ((record_family stdlib "1234::cDEf owo".data "1234::cDEf".data
      [0x12, 0x34, 0, 0, 0, 0, 0, 0, 0, 0, 0, 0, 0, 0, 0xcd, 0xef] _ (by decide) (by decide)
      (List.get_mem _ _ _)).1.2 (by decide)).2⟩

/-! ## Lookups return one address -/

theorem lookupV4_split (L : GoLib) (host : Str) (recs : List RehostsFileRecord) :
    lookupV4 L host recs = [] ∨
    ∃ pre r post, recs = pre ++ r :: post ∧ lookupV4 L host recs = r.AddrV4 ∧
      ∀ n, DeFQDNnIDNA L host = some n →
        r.Match n = true ∧ ∀ p ∈ pre, ¬ (p.Match n = true ∧ p.AddrV4 ≠ []) := by
  induction recs with
  | nil => exact Or.inl rfl
  | cons r rs ih =>
    cases hq : DeFQDNnIDNA L host with
    | none => left; simp [lookupV4, hq]
    | some n =>
      by_cases hc : (r.Match n && r.AddrV4.length != 0) = true
      · right
        refine ⟨[], r, rs, rfl, by simp [lookupV4, hq, hc], ?_⟩
        intro n2 hn2
        cases hn2
        simp only [Bool.and_eq_true] at hc
        exact ⟨hc.1, fun p hp => by cases hp⟩
      · have hl : lookupV4 L host (r :: rs) = lookupV4 L host rs := by
          simp only [lookupV4, hq, hc, if_false, Bool.false_eq_true]
        rw [hl]
        rcases ih with ih | ⟨pre, r2, post, hsplit, hres, hfirst⟩
        · exact Or.inl ih
        · right
          refine ⟨r :: pre, r2, post, by rw [hsplit]; rfl, hres, ?_⟩
          intro n2 hn2
          cases hn2
          obtain ⟨hm, hpre⟩ := hfirst n hq
          refine ⟨hm, ?_⟩
          intro p hp
          rcases List.mem_cons.mp hp with hp | hp
          · subst hp
            intro hboth
            apply hc
            simp only [Bool.and_eq_true, hboth.1, true_and]
            have : p.AddrV4.length ≠ 0 := fun h0 => hboth.2 (List.length_eq_zero.mp h0)
            simpa using this
          · exact hpre p hp

theorem lookupV6_split (L : GoLib) (host : Str) (recs : List RehostsFileRecord) :
    lookupV6 L host recs = [] ∨
    ∃ pre r post, recs = pre ++ r :: post ∧ lookupV6 L host recs = r.AddrV6 ∧
      ∀ n, DeFQDNnIDNA L host = some n →
        r.Match n = true ∧ ∀ p ∈ pre, ¬ (p.Match n = true ∧ p.AddrV6 ≠ []) := by
  induction recs with
  | nil => exact Or.inl rfl
  | cons r rs ih =>
    cases hq : DeFQDNnIDNA L host with
    | none => left; simp [lookupV6, hq]
    | some n =>
      by_cases hc : (r.Match n && r.AddrV6.length != 0) = true
      · right
        refine ⟨[], r, rs, rfl, by simp [lookupV6, hq, hc], ?_⟩
        intro n2 hn2
        cases hn2
        simp only [Bool.and_eq_true] at hc
        exact ⟨hc.1, fun p hp => by cases hp⟩
      · have hl : lookupV6 L host (r :: rs) = lookupV6 L host rs := by
          simp only [lookupV6, hq, hc, if_false, Bool.false_eq_true]
        rw [hl]
        rcases ih with ih | ⟨pre, r2, post, hsplit, hres, hfirst⟩
        · exact Or.inl ih
        · right
          refine ⟨r :: pre, r2, post, by rw [hsplit]; rfl, hres, ?_⟩
          intro n2 hn2
          cases hn2
          obtain ⟨hm, hpre⟩ := hfirst n hq
          refine ⟨hm, ?_⟩
          intro p hp
          rcases List.mem_cons.mp hp with hp | hp
          · subst hp
            intro hboth
            apply hc
            simp only [Bool.and_eq_true, hboth.1, true_and]
            have : p.AddrV6.length ≠ 0 := fun h0 => hboth.2 (List.length_eq_zero.mp h0)
            simpa using this
          · exact hpre p hp

theorem parse_record_lengths (L : GoLib) (text : Str) (r : RehostsFileRecord)
    (h : r ∈ parse L text) : r.AddrV4.length ≤ 1 ∧ r.AddrV6.length ≤ 1 := by
  unfold parse at h
  rw [List.mem_flatMap] at h
  obtain ⟨line, _, hr⟩ := h
  obtain ⟨_, ip, m, _, _, hrec⟩ := mem_parseLine L line r hr
  subst hrec
  cases h4 : (To4 ip).isSome with
  | true => obtain ⟨h1, h2⟩ := newRecord_v4 ip m h4; rw [h1, h2]; exact ⟨Nat.le_refl _, Nat.zero_le _⟩
  | false => obtain ⟨h1, h2⟩ := newRecord_v6 ip m h4; rw [h1, h2]; exact ⟨Nat.zero_le _, Nat.le_refl _⟩

/-- C20: on the table parsed from any text, each of the two lookups returns at
most one address: its result is empty or the address sequence, of length one,
of a record of the table whose matcher accepts the normalized name and before
which no record of the table both accepts the name and holds an address of the
family; so with the lines `1.2.3.4 uwu`, `5.6.7.8 uwu`, `::1 uwu`, `::2 uwu` the
lookups of `uwu.` return 1.2.3.4 and ::1 alone. -/
theorem lookup_at_most_one_address (L : GoLib) (text host : Str) :
    ((LookupStaticHostV4 L (newRehostsFile L text) host).length ≤ 1 ∧
     (LookupStaticHostV6 L (newRehostsFile L text) host).length ≤ 1) ∧
    (LookupStaticHostV4 L (newRehostsFile L text) host = [] ∨
      ∃ pre r post, parse L text = pre ++ r :: post ∧
        LookupStaticHostV4 L (newRehostsFile L text) host = r.AddrV4 ∧ r.AddrV4.length = 1 ∧
        ∀ n, DeFQDNnIDNA L host = some n →
          r.Match n = true ∧ ∀ p ∈ pre, ¬ (p.Match n = true ∧ p.AddrV4 ≠ [])) ∧
    (LookupStaticHostV6 L (newRehostsFile L text) host = [] ∨
      ∃ pre r post, parse L text = pre ++ r :: post ∧
        LookupStaticHostV6 L (newRehostsFile L text) host = r.AddrV6 ∧ r.AddrV6.length = 1 ∧
        ∀ n, DeFQDNnIDNA L host = some n →
          r.Match n = true ∧ ∀ p ∈ pre, ¬ (p.Match n = true ∧ p.AddrV6 ≠ [])) ∧
    LookupStaticHostV4 stdlib
      (newRehostsFile stdlib "1.2.3.4 uwu\n5.6.7.8 uwu\n::1 uwu\n::2 uwu".data) "uwu.".data =
        [[0, 0, 0, 0, 0, 0, 0, 0, 0, 0, 255, 255, 1, 2, 3, 4]] ∧
    LookupStaticHostV6 stdlib
      (newRehostsFile stdlib "1.2.3.4 uwu\n5.6.7.8 uwu\n::1 uwu\n::2 uwu".data) "uwu.".data =
        [[0, 0, 0, 0, 0, 0, 0, 0, 0, 0, 0, 0, 0, 0, 0, 1]] := by
  have h4 : LookupStaticHostV4 L (newRehostsFile L text) host = [] ∨
      ∃ pre r post, parse L text = pre ++ r :: post ∧
        LookupStaticHostV4 L (newRehostsFile L text) host = r.AddrV4 ∧ r.AddrV4.length = 1 ∧
        ∀ n, DeFQDNnIDNA L host = some n →
          r.Match n = true ∧ ∀ p ∈ pre, ¬ (p.Match n = true ∧ p.AddrV4 ≠ []) := by
    rcases lookupV4_split L host (parse L text) with h | ⟨pre, r, post, hs, hres, hf⟩
    · exact Or.inl h
    · by_cases hne : r.AddrV4 = []
      · left
        show lookupV4 L host (parse L text) = []
        rw [hres, hne]
      · right
        have hlen := (parse_record_lengths L text r (by rw [hs]; simp)).1
        have hpos : r.AddrV4.length ≠ 0 := fun h0 => hne (List.length_eq_zero.mp h0)
        exact ⟨pre, r, post, hs, hres, by omega, hf⟩
  have h6 : LookupStaticHostV6 L (newRehostsFile L text) host = [] ∨
      ∃ pre r post, parse L text = pre ++ r :: post ∧
        LookupStaticHostV6 L (newRehostsFile L text) host = r.AddrV6 ∧ r.AddrV6.length = 1 ∧
        ∀ n, DeFQDNnIDNA L host = some n →
          r.Match n = true ∧ ∀ p ∈ pre, ¬ (p.Match n = true ∧ p.AddrV6 ≠ []) := by
    rcases lookupV6_split L host (parse L text) with h | ⟨pre, r, post, hs, hres, hf⟩
    · exact Or.inl h
    · by_cases hne : r.AddrV6 = []
      · left
        show lookupV6 L host (parse L text) = []
        rw [hres, hne]
      · right
        have hlen := (parse_record_lengths L text r (by rw [hs]; simp)).2
        have hpos : r.AddrV6.length ≠ 0 := fun h0 => hne (List.length_eq_zero.mp h0)
        exact ⟨pre, r, post, hs, hres, by omega, hf⟩
  refine ⟨⟨?_, ?_⟩, h4, h6, by decide, by decide⟩
  · rcases h4 with h | ⟨_, r, _, _, hres, hlen, _⟩
    · rw [h]; exact Nat.zero_le _
    · rw [hres, hlen]
  · rcases h6 with h | ⟨_, r, _, _, hres, hlen, _⟩
    · rw [h]; exact Nat.zero_le _
    · rw [hres, hlen]

/-! ## The pattern of a wildcard token -/

theorem isMeta_eq_true_iff (c : Char) :
    isMeta c = true ↔ (c = '\\' ∨ c = '.' ∨ c = '*' ∨ c = '+' ∨ c = '?' ∨ c = '(' ∨ c = ')' ∨
      c = '|' ∨ c = '[' ∨ c = '{' ∨ c = '^' ∨ c = '$') := by
  simp [isMeta]

theorem stdlib_lower_not_meta (c : Char) (h : stdIsLetter c = true ∨ stdIsDigit c = true) :
    isMeta (stdToLower c) = false := by
  unfold stdToLower
  split
  · next hu =>
    have h1 : 65 ≤ c.toNat := hu.1
    have h2 : c.toNat ≤ 90 := hu.2
    generalize c.toNat = n at h1 h2
    interval_cases n <;> decide
  · split
    · decide
    · rw [Bool.eq_false_iff]
      intro hm
      rw [isMeta_eq_true_iff] at hm
      rcases hm with rfl | rfl | rfl | rfl | rfl | rfl | rfl | rfl | rfl | rfl | rfl | rfl <;>
        (revert h; decide)

theorem stdlib_patternLaws : PatternLaws stdlib :=
  ⟨rfl, ⟨by decide, by decide, by decide, by decide, by decide⟩, stdlib_lower_not_meta⟩

theorem readRune_plain (st : Reader) (c : Char) (he : st.esc = false) (hm : isMeta c = false) :
    readRune st c = pushItem st (Re.lit c) := by
  have hn : ¬ (c = '\\' ∨ c = '.' ∨ c = '*' ∨ c = '+' ∨ c = '?' ∨ c = '(' ∨ c = ')' ∨
      c = '|' ∨ c = '[' ∨ c = '{' ∨ c = '^' ∨ c = '$') := by
    rw [← isMeta_eq_true_iff, hm]
    exact Bool.false_ne_true
  simp only [not_or] at hn
  obtain ⟨h1, h2, h3, h4, h5, h6, h7, h8, h9, h10, h11, h12⟩ := hn
  unfold readRune
  simp only [he, Bool.false_eq_true, if_false, h1, h2, h3, h4, h5, h6, h7, h8, h9, h10, h11, h12,
    or_self]

/-- The runes that a rune of a wildcard token becomes in the pattern. -/
theorem chunk_eq (L : GoLib) (hL : PatternLaws L) (c : Char) :
    ToLower L (wildcardReplacer [c]) =
      if c = '.' then ['\\', '.'] else if c = '*' then ['.', '*'] else [L.ToLower c] := by
  obtain ⟨_, ⟨hb, hd, hs, _, _⟩, _⟩ := hL
  unfold wildcardReplacer ToLower
  by_cases h1 : c = '.'
  · subst h1
    simp [hb, hd]
  · by_cases h2 : c = '*'
    · subst h2
      simp [hd, hs]
    · simp [h1, h2]

theorem read_chunk (L : GoLib) (hL : PatternLaws L) (c : Char)
    (hc : L.IsLetter c = true ∨ L.IsDigit c = true ∨ c = '*' ∨ c = '.' ∨ c = '-' ∨ c = '_')
    (f : Frame) (reps : Nat) :
    ∃ reps2, (ToLower L (wildcardReplacer [c])).foldlM readRune
        { stack := [f], esc := false, reps := reps } =
      some { stack := [{ alts := f.alts, items := wildItem L c :: f.items }], esc := false,
             reps := reps2 } := by
  rw [chunk_eq L hL c]
  unfold wildItem
  by_cases h1 : c = '.'
  · subst h1
    refine ⟨0, ?_⟩
    simp [List.foldlM, readRune, pushItem, Char.isAlphanum, Char.isAlpha, Char.isDigit,
      Char.isUpper, Char.isLower]
  · by_cases h2 : c = '*'
    · subst h2
      refine ⟨1, ?_⟩
      simp [List.foldlM, readRune, pushItem, repeatItem]
    · simp only [h1, h2, if_false]
      refine ⟨0, ?_⟩
      have hm : isMeta (L.ToLower c) = false := by
        obtain ⟨_, ⟨_, _, _, hdash, hund⟩, hlow⟩ := hL
        rcases hc with h | h | h | h | h | h
        · exact hlow c (Or.inl h)
        · exact hlow c (Or.inr h)
        · exact absurd h h2
        · exact absurd h h1
        · subst h; rw [hdash]; decide
        · subst h; rw [hund]; decide
      have hrr := readRune_plain { stack := [f], esc := false, reps := reps } (L.ToLower c) rfl hm
      simp only [List.foldlM, hrr, pushItem, bind, Option.bind, pure]

theorem verifyWildcard_cons (L : GoLib) (c : Char) (t : Str) :
    verifyWildcard L (c :: t) = true ↔
      (L.IsLetter c = true ∨ L.IsDigit c = true ∨ c = '*' ∨ c = '.' ∨ c = '-' ∨ c = '_') ∧
        verifyWildcard L t = true := by
  rw [verifyWildcard]
  by_cases h1 : L.IsLetter c = true
  · simp [h1]
  · by_cases h2 : L.IsDigit c = true
    · simp [h2]
    · by_cases h3 : (c == '*' || c == '.' || c == '-' || c == '_') = true
      · have h4 : c = '*' ∨ c = '.' ∨ c = '-' ∨ c = '_' := by simpa [or_assoc] using h3
        simp only [h1, h2, h3, if_true, if_false, Bool.false_eq_true, false_or]
        exact ⟨fun h => ⟨h4, h⟩, fun h => h.2⟩
      · have h4 : ¬ (c = '*' ∨ c = '.' ∨ c = '-' ∨ c = '_') := by simpa [or_assoc] using h3
        simp only [h1, h2, h3, if_false, Bool.false_eq_true, false_or]
        exact ⟨fun h => (by cases h), fun h => absurd h.1 h4⟩

theorem verifyWildcard_iff (L : GoLib) (t : Str) :
    verifyWildcard L t = true ↔
      ∀ c ∈ t, L.IsLetter c = true ∨ L.IsDigit c = true ∨ c = '*' ∨ c = '.' ∨ c = '-' ∨ c = '_' := by
  induction t with
  | nil => simp [verifyWildcard]
  | cons c t ih =>
    rw [verifyWildcard_cons, ih]
    simp

theorem wildcardReplacer_cons (c : Char) (t : Str) :
    wildcardReplacer (c :: t) = wildcardReplacer [c] ++ wildcardReplacer t := by
  simp [wildcardReplacer]

theorem read_token (L : GoLib) (hL : PatternLaws L) (t : Str) (hv : verifyWildcard L t = true)
    (f : Frame) (reps : Nat) :
    ∃ reps2, (ToLower L (wildcardReplacer t)).foldlM readRune
        { stack := [f], esc := false, reps := reps } =
      some { stack := [{ alts := f.alts, items := t.reverse.map (wildItem L) ++ f.items }],
             esc := false, reps := reps2 } := by
  induction t generalizing f reps with
  | nil => exact ⟨reps, rfl⟩
  | cons c t ih =>
    rw [verifyWildcard_cons] at hv
    obtain ⟨r1, h1⟩ := read_chunk L hL c hv.1 f reps
    obtain ⟨r2, h2⟩ := ih hv.2 { alts := f.alts, items := wildItem L c :: f.items } r1
    refine ⟨r2, ?_⟩
    rw [wildcardReplacer_cons]
    unfold ToLower at h1 h2 ⊢
    rw [List.map_append, List.foldlM_append, h1]
    simp only [Option.bind_eq_bind, Option.some_bind]
    rw [h2]
    simp

/-- The pattern of a token that passes `verifyWildcard` is read as the sequence
of the items of its runes, and compiles. -/
theorem wildcard_pattern_compiles (L : GoLib) (hL : PatternLaws L) (t : Str)
    (hv : verifyWildcard L t = true) :
    readPattern (ToLower L (wildcardReplacer t)) = some (wildRe L t) ∧
    L.Compile (ToLower L (wildcardReplacer t)) = some (Re.search (wildRe L t)) := by
  obtain ⟨r, hr⟩ := read_token L hL t hv { alts := [], items := [] } 0
  have h1 : readPattern (ToLower L (wildcardReplacer t)) = some (wildRe L t) := by
    unfold readPattern
    rw [hr]
    simp [groupOf, wildRe]
  refine ⟨h1, ?_⟩
  rw [hL.1]
  unfold stdCompile
  rw [h1]
  rfl

theorem foldl_deriv_zero (s : Str) : s.foldl Re.deriv Re.zero = Re.zero := by
  induction s with
  | nil => rfl
  | cons x s ih => simpa [List.foldl, Re.deriv] using ih

theorem lit_matchesAll (c : Char) (s : Str) : (Re.lit c).matchesAll s = true ↔ s = [c] := by
  unfold Re.matchesAll
  cases s with
  | nil => simp [Re.nullable]
  | cons x s =>
    rw [List.foldl_cons]
    by_cases hx : x = c
    · subst hx
      cases s with
      | nil => simp [Re.deriv, Re.nullable]
      | cons y s =>
        simp only [Re.deriv, if_true, List.foldl_cons, foldl_deriv_zero, Re.nullable]
        simp
    · simp only [Re.deriv, hx, if_false, foldl_deriv_zero, Re.nullable]
      simp [hx]

theorem parseField_invalid (L : GoLib) (ip : IP) (t : Str) (hstar : t.contains '*' = true)
    (hv : verifyWildcard L t = false) : parseField L ip t = none := by
  unfold parseField
  rw [if_pos hstar, if_pos (by rw [hv]; rfl)]

/-- C17: for a host token that contains `*`, `verifyWildcard` returns true
exactly when every rune of the token is a letter, a digit, `*`, `.`, `-` or `_`,
and, the pattern being compiled by the modelled regexp package, the token yields
a record exactly then; a token that fails the check yields no record, and the
fields before and after it on the line yield their records in order. -/
theorem wildcard_token_record (L : GoLib) (hL : PatternLaws L) (ip : IP) (t : Str)
    (hstar : t.contains '*' = true) :
    (verifyWildcard L t = true ↔
      ∀ c ∈ t, L.IsLetter c = true ∨ L.IsDigit c = true ∨ c = '*' ∨ c = '.' ∨ c = '-' ∨ c = '_') ∧
    ((parseField L ip t).isSome = true ↔
      ∀ c ∈ t, L.IsLetter c = true ∨ L.IsDigit c = true ∨ c = '*' ∨ c = '.' ∨ c = '-' ∨ c = '_') ∧
    (verifyWildcard L t = false → parseField L ip t = none) ∧
    ∀ line ipStr pre post, verifyWildcard L t = false →
      (lineBody line).contains '@' = false → Fields (lineBody line) = ipStr :: (pre ++ t :: post) →
      parseIP L ipStr = some ip →
      parseLine L line = pre.filterMap (parseField L ip) ++ post.filterMap (parseField L ip) := by
  refine ⟨verifyWildcard_iff L t, ?_, parseField_invalid L ip t hstar, ?_⟩
  · rw [← verifyWildcard_iff]
    constructor
    · intro h
      cases hv : verifyWildcard L t with
      | true => rfl
      | false => rw [parseField_invalid L ip t hstar hv] at h; cases h
    · intro hv
      rw [parseField_wild L ip t _ hstar hv (wildcard_pattern_compiles L hL t hv).2]
      rfl
  · intro line ipStr pre post hv hat hf hip
    rw [parseLine_fields L line ipStr _ ip hat hf hip, List.filterMap_append, List.filterMap_cons,
      parseField_invalid L ip t hstar hv]

theorem wildcard_token_record_witness :
    ¬ (∀ c ∈ "*.b!d".data, stdlib.IsLetter c = true ∨ stdlib.IsDigit c = true ∨ c = '*' ∨ c = '.' ∨
        c = '-' ∨ c = '_') ∧
    parseField stdlib [0, 0, 0, 0, 0, 0, 0, 0, 0, 0, 255, 255, 1, 2, 3, 4] "*.b!d".data = none ∧
    parseLine stdlib "1.2.3.4 a *.b!d *.c".data =
      ["a".data].filterMap (parseField stdlib [0, 0, 0, 0, 0, 0, 0, 0, 0, 0, 255, 255, 1, 2, 3, 4]) ++
      ["*.c".data].filterMap (parseField stdlib [0, 0, 0, 0, 0, 0, 0, 0, 0, 0, 255, 255, 1, 2, 3, 4]) ∧
    (parseLine stdlib "1.2.3.4 a *.b!d *.c".data).length = 2 :=
  ⟨by decide,
   (wildcard_token_record stdlib stdlib_patternLaws [0, 0, 0, 0, 0, 0, 0, 0, 0, 0, 255, 255, 1, 2, 3, 4]
      "*.b!d".data (by decide)).2.2.1 (by decide),
   (wildcard_token_record stdlib stdlib_patternLaws [0, 0, 0, 0, 0, 0, 0, 0, 0, 0, 255, 255, 1, 2, 3, 4]
      "*.b!d".data (by decide)).2.2.2 "1.2.3.4 a *.b!d *.c".data "1.2.3.4".data ["a".data]
      ["*.c".data] (by decide) (by decide) (by decide) (by decide),
   by decide⟩

/-- C19: for a token that passes `verifyWildcard`, the pattern obtained by the
replacer and lower-casing is read by the modelled regexp package as the sequence
of the items of the token's runes and compiles, so on the wildcard path the
compile-failure branch is not taken and the token yields its record; the item of a
`-` and of a `_` is that rune as a literal, and a literal matches the one-rune
string of its rune only. -/
theorem wildcard_pattern_valid (L : GoLib) (hL : PatternLaws L) (t : Str)
    (hv : verifyWildcard L t = true) :
    L.Compile (ToLower L (wildcardReplacer t)) = some (Re.search (wildRe L t)) ∧
    (∀ ip, t.contains '*' = true →
      parseField L ip t = some (newRecord ip (Re.search (wildRe L t)))) ∧
    (wildItem L '-' = Re.lit '-' ∧ wildItem L '_' = Re.lit '_') ∧
    ∀ c s, (Re.lit c).matchesAll s = true ↔ s = [c] := by
  have hc := (wildcard_pattern_compiles L hL t hv).2
  refine ⟨hc, fun ip hstar => parseField_wild L ip t _ hstar hv hc, ⟨?_, ?_⟩, lit_matchesAll⟩
  · unfold wildItem
    rw [if_neg (by decide), if_neg (by decide), hL.2.1.2.2.2.1]
  · unfold wildItem
    rw [if_neg (by decide), if_neg (by decide), hL.2.1.2.2.2.2]

theorem wildcard_pattern_valid_witness :
    stdlib.Compile (ToLower stdlib (wildcardReplacer "*.My-Google_1.us".data)) =
      some (Re.search (wildRe stdlib "*.My-Google_1.us".data)) ∧
    Re.search (wildRe stdlib "*.My-Google_1.us".data) "not.my-google_1.us".data = true ∧
    Re.search (wildRe stdlib "*.My-Google_1.us".data) "not.my_google_1.us".data = false ∧
    Re.search (wildRe stdlib "*.My-Google_1.us".data) "not.my-google-1.us".data = false :=
  ⟨(wildcard_pattern_valid stdlib stdlib_patternLaws "*.My-Google_1.us".data (by decide)).1,
   by decide, by decide, by decide⟩

/-! ## The parsed table in memory -/

theorem Mem.grows_refl (m : Mem) : m.grows m :=
  ⟨[], [], (List.append_nil _).symm, (List.append_nil _).symm⟩

theorem Mem.grows_trans {m1 m2 m3 : Mem} (h1 : m1.grows m2) (h2 : m2.grows m3) :
    m1.grows m3 := by
  obtain ⟨b1, s1, hb1, hs1⟩ := h1
  obtain ⟨b2, s2, hb2, hs2⟩ := h2
  exact ⟨b1 ++ b2, s1 ++ s2, by rw [hb2, hb1, List.append_assoc],
    by rw [hs2, hs1, List.append_assoc]⟩

theorem Mem.grows_allocIP (m : Mem) (ip : IP) : m.grows (m.allocIP ip).2 :=
  ⟨[ip], [], rfl, (List.append_nil _).symm⟩

theorem Mem.grows_appendOne (m : Mem) (v : Nat) : m.grows (m.appendOne v).2 :=
  ⟨[], [[v]], (List.append_nil _).symm, rfl⟩

theorem Mem.bytes_length_grows {m1 m2 : Mem} (h : m1.grows m2) :
    m1.bytes.length ≤ m2.bytes.length := by
  obtain ⟨b, s, hb, hs⟩ := h
  rw [hb, List.length_append]
  exact Nat.le_add_right _ _

theorem Mem.slices_length_grows {m1 m2 : Mem} (h : m1.grows m2) :
    m1.slices.length ≤ m2.slices.length := by
  obtain ⟨b, s, hb, hs⟩ := h
  rw [hs, List.length_append]
  exact Nat.le_add_right _ _

theorem Mem.readIP_grows {m1 m2 : Mem} (h : m1.grows m2) (p : Nat) (hp : p < m1.bytes.length) :
    m2.readIP p = m1.readIP p := by
  obtain ⟨b, s, hb, hs⟩ := h
  simp only [Mem.readIP, List.getD_eq_getElem?_getD]
  rw [hb, List.getElem?_append_left hp]

theorem Mem.slice_grows {m1 m2 : Mem} (h : m1.grows m2) (a : Nat) (ha : a < m1.slices.length) :
    m2.slices.getD a [] = m1.slices.getD a [] := by
  obtain ⟨b, s, hb, hs⟩ := h
  simp only [List.getD_eq_getElem?_getD]
  rw [hs, List.getElem?_append_left ha]

theorem Mem.read_grows {m1 m2 : Mem} (h : m1.grows m2) (a : Nat) (ha : a < m1.slices.length)
    (hp : ∀ p ∈ m1.slices.getD a [], p < m1.bytes.length) :
    m2.read (some a) = m1.read (some a) := by
  simp only [Mem.read]
  rw [Mem.slice_grows h a ha]
  apply List.map_congr_left
  intro p hpm
  exact Mem.readIP_grows h p (hp p hpm)

/-- A record that is allocated in a memory is allocated in every memory that
comes from it by allocations. -/
theorem allocated_grows {m1 m2 : Mem} (h : m1.grows m2) (r : MemRecord) (hr : allocated m1 r) :
    allocated m2 r := by
  intro a ha
  obtain ⟨h1, h2⟩ := hr a ha
  refine ⟨Nat.lt_of_lt_of_le h1 (Mem.slices_length_grows h), ?_⟩
  rw [Mem.slice_grows h a h1]
  intro p hp
  exact Nat.lt_of_lt_of_le (h2 p hp) (Mem.bytes_length_grows h)

/-- Allocations leave an allocated record as it is. -/
theorem load_grows {m1 m2 : Mem} (h : m1.grows m2) (r : MemRecord) (hr : allocated m1 r) :
    m2.load r = m1.load r := by
  have key : ∀ s : Option Nat, (∀ a, s = some a →
      a < m1.slices.length ∧ ∀ p ∈ m1.slices.getD a [], p < m1.bytes.length) →
      m2.read s = m1.read s := by
    intro s hs
    cases s with
    | none => rfl
    | some a => exact Mem.read_grows h a (hs a rfl).1 (hs a rfl).2
  unfold Mem.load
  rw [key r.AddrV4 (fun a ha => hr a (Or.inl ha)), key r.AddrV6 (fun a ha => hr a (Or.inr ha))]

theorem Mem.read_appendOne (m : Mem) (p : Nat) (hp : p < m.bytes.length) :
    (m.appendOne p).2.read (m.appendOne p).1 = [m.readIP p] ∧
    ∀ a, (m.appendOne p).1 = some a →
      a < (m.appendOne p).2.slices.length ∧
      ∀ q ∈ (m.appendOne p).2.slices.getD a [], q < (m.appendOne p).2.bytes.length := by
  have hs : (m.slices ++ [[p]]).getD m.slices.length [] = [p] := by
    simp only [List.getD_eq_getElem?_getD]
    rw [List.getElem?_append_right (Nat.le_refl _)]
    simp only [Nat.sub_self, List.getElem?_cons_zero, Option.getD_some]
  refine ⟨?_, ?_⟩
  · simp only [Mem.appendOne, Mem.read]
    rw [hs]
    rfl
  · intro a ha
    simp only [Mem.appendOne, Option.some.injEq] at ha
    subst ha
    simp only [Mem.appendOne]
    rw [hs]
    refine ⟨by simp, ?_⟩
    intro q hq
    simp only [List.mem_singleton] at hq
    rw [hq]
    exact hp

/-- The record built in memory around the `net.IP` value of the line stands for
the record of `newRecord`, and is allocated. -/
theorem newRecordMem_spec (m : Mem) (p : Nat) (ip : IP) (re : Str → Bool)
    (hp : p < m.bytes.length) (hip : m.readIP p = ip) :
    m.grows (newRecordMem m p ip re).2 ∧
    (newRecordMem m p ip re).2.load (newRecordMem m p ip re).1 = newRecord ip re ∧
    allocated (newRecordMem m p ip re).2 (newRecordMem m p ip re).1 := by
  obtain ⟨hread, halloc⟩ := Mem.read_appendOne m p hp
  unfold newRecordMem newRecord
  cases h4 : (To4 ip).isSome with
  | true =>
    simp only [if_true]
    refine ⟨Mem.grows_appendOne m p, ?_, ?_⟩
    · simp only [Mem.load]
      rw [hread, hip]
      rfl
    · intro a ha
      rcases ha with ha | ha
      · exact halloc a ha
      · cases ha
  | false =>
    simp only [Bool.false_eq_true, if_false]
    refine ⟨Mem.grows_appendOne m p, ?_, ?_⟩
    · simp only [Mem.load]
      rw [hread, hip]
      rfl
    · intro a ha
      rcases ha with ha | ha
      · cases ha
      · exact halloc a ha

/-- One turn of the inner loop in memory stands for the turn of `parseField`. -/
theorem parseFieldMem_spec (L : GoLib) (m : Mem) (p : Nat) (ip : IP) (fieldStr : Str)
    (hp : p < m.bytes.length) (hip : m.readIP p = ip) :
    m.grows (parseFieldMem L m p ip fieldStr).2 ∧
    (parseFieldMem L m p ip fieldStr).1.map (parseFieldMem L m p ip fieldStr).2.load =
      parseField L ip fieldStr ∧
    ∀ r, (parseFieldMem L m p ip fieldStr).1 = some r →
      allocated (parseFieldMem L m p ip fieldStr).2 r := by
  unfold parseFieldMem parseField
  by_cases hstar : fieldStr.contains '*' = true
  · rw [if_pos hstar, if_pos hstar]
    by_cases hv : (!verifyWildcard L fieldStr) = true
    · rw [if_pos hv, if_pos hv]
      exact ⟨Mem.grows_appendOne m p, rfl, fun r hr => by cases hr⟩
    · rw [if_neg hv, if_neg hv]
      dsimp only
      cases hc : L.Compile (ToLower L (wildcardReplacer fieldStr)) with
      | none => exact ⟨Mem.grows_appendOne m p, rfl, fun r hr => by cases hr⟩
      | some re =>
        obtain ⟨h1, h2, h3⟩ := newRecordMem_spec m p ip re hp hip
        refine ⟨h1, ?_, ?_⟩
        · simp only [Option.map_some']
          rw [h2]
        · intro r hr
          simp only [Option.some.injEq] at hr
          rw [← hr]
          exact h3
  · rw [if_neg hstar, if_neg hstar]
    dsimp only
    obtain ⟨h1, h2, h3⟩ :=
      newRecordMem_spec m p ip (fun str => ToLower L fieldStr == str) hp hip
    refine ⟨h1, ?_, ?_⟩
    · simp only [Option.map_some']
      rw [h2]
    · intro r hr
      simp only [Option.some.injEq] at hr
      rw [← hr]
      exact h3

/-- The inner loop in memory stands for the inner loop of `parse`. -/
theorem parseFieldsMem_spec (L : GoLib) (p : Nat) (ip : IP) (fields : List Str) :
    ∀ m : Mem, p < m.bytes.length → m.readIP p = ip →
    m.grows (parseFieldsMem L p ip m fields).2 ∧
    (parseFieldsMem L p ip m fields).1.map (parseFieldsMem L p ip m fields).2.load =
      fields.filterMap (parseField L ip) ∧
    ∀ r ∈ (parseFieldsMem L p ip m fields).1, allocated (parseFieldsMem L p ip m fields).2 r := by
  induction fields with
  | nil =>
    intro m _ _
    exact ⟨Mem.grows_refl m, rfl, fun r hr => by cases hr⟩
  | cons f rest ih =>
    intro m hp hip
    obtain ⟨g1, e1, a1⟩ := parseFieldMem_spec L m p ip f hp hip
    have hp1 : p < (parseFieldMem L m p ip f).2.bytes.length :=
      Nat.lt_of_lt_of_le hp (Mem.bytes_length_grows g1)
    have hip1 : (parseFieldMem L m p ip f).2.readIP p = ip := by
      rw [Mem.readIP_grows g1 p hp]; exact hip
    obtain ⟨g2, e2, a2⟩ := ih (parseFieldMem L m p ip f).2 hp1 hip1
    simp only [parseFieldsMem]
    cases hr : (parseFieldMem L m p ip f).1 with
    | none =>
      rw [hr] at e1
      simp only [Option.map_none'] at e1
      simp only [List.filterMap_cons]
      rw [← e1]
      exact ⟨Mem.grows_trans g1 g2, e2, a2⟩
    | some r =>
      rw [hr] at e1
      simp only [Option.map_some'] at e1
      simp only [List.filterMap_cons]
      rw [← e1]
      refine ⟨Mem.grows_trans g1 g2, ?_, ?_⟩
      · simp only [List.map_cons]
        rw [e2, load_grows g2 r (a1 r hr)]
      · intro r2 hr2
        simp only [List.mem_cons] at hr2
        rcases hr2 with hr2 | hr2
        · rw [hr2]
          exact allocated_grows g2 r (a1 r hr)
        · exact a2 r2 hr2

/-- One turn of the outer loop in memory stands for the turn of `parseLine`. -/
theorem parseLineMem_spec (L : GoLib) (m : Mem) (scanned : Str) :
    m.grows (parseLineMem L m scanned).2 ∧
    (parseLineMem L m scanned).1.map (parseLineMem L m scanned).2.load = parseLine L scanned ∧
    ∀ r ∈ (parseLineMem L m scanned).1, allocated (parseLineMem L m scanned).2 r := by
  have hnew : ∀ ip : IP, (m.allocIP ip).1 < (m.allocIP ip).2.bytes.length ∧
      (m.allocIP ip).2.readIP (m.allocIP ip).1 = ip := by
    intro ip
    refine ⟨by simp [Mem.allocIP], ?_⟩
    simp only [Mem.allocIP, Mem.readIP, List.getD_eq_getElem?_getD]
    rw [List.getElem?_append_right (Nat.le_refl _)]
    simp only [Nat.sub_self, List.getElem?_cons_zero, Option.getD_some]
  unfold parseLineMem parseLine
  dsimp only
  by_cases he : (lineBody scanned).isEmpty = true
  · rw [if_pos he, if_pos he]
    exact ⟨Mem.grows_refl m, rfl, fun r hr => by cases hr⟩
  · rw [if_neg he, if_neg he]
    by_cases hat : (lineBody scanned).contains '@' = true
    · rw [if_pos hat, if_pos hat]
      cases hi : parseIP L ((lineBody scanned).takeWhile (fun c => c != '@')) with
      | none => exact ⟨Mem.grows_refl m, rfl, fun r hr => by cases hr⟩
      | some ip =>
        dsimp only
        cases hc : L.Compile
            (TrimSpace (((lineBody scanned).dropWhile (fun c => c != '@')).drop 1)) with
        | none => exact ⟨Mem.grows_allocIP m ip, rfl, fun r hr => by cases hr⟩
        | some re =>
          obtain ⟨h1, h2, h3⟩ :=
            newRecordMem_spec (m.allocIP ip).2 (m.allocIP ip).1 ip re (hnew ip).1 (hnew ip).2
          refine ⟨Mem.grows_trans (Mem.grows_allocIP m ip) h1, ?_, ?_⟩
          · simp only [List.map_cons, List.map_nil]
            rw [h2]
          · intro r hr
            simp only [List.mem_singleton] at hr
            rw [hr]
            exact h3
    · rw [if_neg hat, if_neg hat]
      cases hf : Fields (lineBody scanned) with
      | nil => exact ⟨Mem.grows_refl m, rfl, fun r hr => by cases hr⟩
      | cons ipStr hostFields =>
        dsimp only
        cases hi : parseIP L ipStr with
        | none => exact ⟨Mem.grows_refl m, rfl, fun r hr => by cases hr⟩
        | some ip =>
          obtain ⟨h1, h2, h3⟩ :=
            parseFieldsMem_spec L (m.allocIP ip).1 ip hostFields (m.allocIP ip).2
              (hnew ip).1 (hnew ip).2
          exact ⟨Mem.grows_trans (Mem.grows_allocIP m ip) h1, h2, h3⟩

/-- The outer loop in memory stands for the outer loop of `parse`. -/
theorem parseLinesMem_spec (L : GoLib) (lines : List Str) :
    ∀ m : Mem, m.grows (parseLinesMem L m lines).2 ∧
    (parseLinesMem L m lines).1.map (parseLinesMem L m lines).2.load =
      lines.flatMap (parseLine L) ∧
    ∀ r ∈ (parseLinesMem L m lines).1, allocated (parseLinesMem L m lines).2 r := by
  induction lines with
  | nil =>
    intro m
    exact ⟨Mem.grows_refl m, rfl, fun r hr => by cases hr⟩
  | cons line rest ih =>
    intro m
    obtain ⟨g1, e1, a1⟩ := parseLineMem_spec L m line
    obtain ⟨g2, e2, a2⟩ := ih (parseLineMem L m line).2
    simp only [parseLinesMem]
    refine ⟨Mem.grows_trans g1 g2, ?_, ?_⟩
    · rw [List.map_append, e2, List.flatMap_cons, ← e1]
      congr 1
      apply List.map_congr_left
      intro r hr
      exact load_grows g2 r (a1 r hr)
    · intro r hr
      rcases List.mem_append.mp hr with hr | hr
      · exact allocated_grows g2 r (a1 r hr)
      · exact a2 r hr

/-- The records that `parse` leaves in memory stand for the records of
`parse`. -/
theorem parseMem_load (L : GoLib) (m : Mem) (text : Str) :
    (parseMem L m text).1.map (parseMem L m text).2.load = parse L text :=
  (parseLinesMem_spec L (scanLines text) m).2.1

/-- The records that `parse` leaves in memory are allocated. -/
theorem parseMem_allocated (L : GoLib) (m : Mem) (text : Str) :
    ∀ r ∈ (parseMem L m text).1, allocated (parseMem L m text).2 r :=
  (parseLinesMem_spec L (scanLines text) m).2.2

/-- The lookup on the table of a file in memory returns the addresses that the
lookup on the parsed records returns. -/
theorem storedFile_readV4 (L : GoLib) (file host : Str) :
    readV4 L host (storedFile L file).2 (storedFile L file).1 = lookupV4 L host (parse L file) := by
  rw [lookupV4Mem_read]
  unfold storedFile
  rw [parseMem_load]

/-- The same for `LookupStaticHostV6`. -/
theorem storedFile_readV6 (L : GoLib) (file host : Str) :
    readV6 L host (storedFile L file).2 (storedFile L file).1 = lookupV6 L host (parse L file) := by
  rw [lookupV6Mem_read]
  unfold storedFile
  rw [parseMem_load]

/-- On the table of any file, an assignment `s[i] = v` through the slice `s`
returned by `LookupStaticHostV4` leaves the result of the next lookup as it
was: the array of the returned slice is a copy. -/
theorem storedFile_after_setElem (L : GoLib) (file host : Str) (i v : Nat) :
    readV4 L host
      ((lookupV4Mem L host (storedFile L file).2 (storedFile L file).1).2.setElem
        (lookupV4Mem L host (storedFile L file).2 (storedFile L file).1).1 i v)
      (storedFile L file).1 = lookupV4 L host (parse L file) := by
  rw [lookup_after_setElem L host (storedFile L file).2 (storedFile L file).1
    (fun r hr a ha => (parseMem_allocated L _ file r hr a ha).1) i v]
  exact storedFile_readV4 L file host

/-! ## Lines longer than the buffer of the scanner -/

theorem plainField_spec (t : Str) (h : plainField t = true) :
    t ≠ [] ∧ ∀ c ∈ t, isSpace c = false ∧ c ≠ '#' ∧ c ≠ '@' := by
  unfold plainField at h
  simp only [Bool.and_eq_true, Bool.not_eq_true', List.all_eq_true, bne_iff_ne, ne_eq] at h
  refine ⟨?_, fun c hc => ⟨(h.2 c hc).1.1, (h.2 c hc).1.2, (h.2 c hc).2⟩⟩
  intro ht
  rw [ht] at h
  simp at h

theorem tokenLine_cons (ip t : Str) (ts : List Str) :
    tokenLine ip (t :: ts) = ip ++ ' ' :: tokenLine t ts := by
  simp [tokenLine]

theorem mem_tokenLine (ip : Str) (ts : List Str) (c : Char) (h : c ∈ tokenLine ip ts) :
    c ∈ ip ∨ c = ' ' ∨ ∃ t ∈ ts, c ∈ t := by
  induction ts generalizing ip with
  | nil => left; simpa [tokenLine] using h
  | cons t ts ih =>
    rw [tokenLine_cons] at h
    rcases List.mem_append.mp h with h | h
    · exact Or.inl h
    · rcases List.mem_cons.mp h with h | h
      · exact Or.inr (Or.inl h)
      · rcases ih t h with h | h | ⟨u, hu, hc⟩
        · exact Or.inr (Or.inr ⟨t, List.mem_cons_self _ _, h⟩)
        · exact Or.inr (Or.inl h)
        · exact Or.inr (Or.inr ⟨u, List.mem_cons_of_mem _ hu, hc⟩)

theorem Fields_tokenLine (ip : Str) (ts : List Str) (hip : plainField ip = true)
    (hts : ∀ t ∈ ts, plainField t = true) : Fields (tokenLine ip ts) = ip :: ts := by
  induction ts generalizing ip with
  | nil =>
    obtain ⟨hne, hc⟩ := plainField_spec ip hip
    unfold Fields tokenLine
    rw [List.map_nil, List.flatten_nil, List.append_nil, List.splitOnP_eq_single]
    · cases ip with
      | nil => exact absurd rfl hne
      | cons a as => rfl
    · intro x hx
      rw [(hc x hx).1]
      exact Bool.false_ne_true
  | cons t ts ih =>
    obtain ⟨hne, hc⟩ := plainField_spec ip hip
    have iht := ih t (hts t (List.mem_cons_self _ _)) (fun u hu => hts u (List.mem_cons_of_mem _ hu))
    rw [tokenLine_cons]
    unfold Fields at iht ⊢
    rw [List.splitOnP_first isSpace ip (fun x hx => by rw [(hc x hx).1]; exact Bool.false_ne_true)
      ' ' (by decide), List.filter_cons]
    cases ip with
    | nil => exact absurd rfl hne
    | cons a as =>
      simp only [List.isEmpty_cons, Bool.not_false, if_true]
      rw [iht]

theorem tokenLine_last (ip : Str) (ts : List Str) (hip : plainField ip = true)
    (hts : ∀ t ∈ ts, plainField t = true) (c : Char) (h : (tokenLine ip ts).getLast? = some c) :
    isSpace c = false := by
  induction ts generalizing ip with
  | nil =>
    have : c ∈ ip := by
      have h2 : ip.getLast? = some c := by simpa [tokenLine] using h
      exact List.mem_of_getLast?_eq_some h2
    exact ((plainField_spec ip hip).2 c this).1
  | cons t ts ih =>
    rw [tokenLine_cons] at h
    have hne : tokenLine t ts ≠ [] := by
      have := (plainField_spec t (hts t (List.mem_cons_self _ _))).1
      unfold tokenLine
      intro h0
      exact this (List.append_eq_nil.mp h0).1
    have h2 : (tokenLine t ts).getLast? = some c := by
      have h3 : ip ++ ' ' :: tokenLine t ts = (ip ++ [' ']) ++ tokenLine t ts := by simp
      rw [h3, List.getLast?_append_of_ne_nil _ hne] at h
      exact h
    exact ih t (hts t (List.mem_cons_self _ _)) (fun u hu => hts u (List.mem_cons_of_mem _ hu)) h2

theorem lineBody_tokenLine (ip : Str) (ts : List Str) (hip : plainField ip = true)
    (hts : ∀ t ∈ ts, plainField t = true) : lineBody (tokenLine ip ts) = tokenLine ip ts := by
  have hmem : ∀ c ∈ tokenLine ip ts, c ≠ '#' := by
    intro c hc
    rcases mem_tokenLine ip ts c hc with h | h | ⟨t, ht, h⟩
    · exact ((plainField_spec ip hip).2 c h).2.1
    · rw [h]; decide
    · exact ((plainField_spec t (hts t ht)).2 c h).2.1
  unfold lineBody
  have h1 : (tokenLine ip ts).takeWhile (fun c => c != '#') = tokenLine ip ts := by
    rw [List.takeWhile_eq_self_iff]
    intro c hc
    simpa using hmem c hc
  rw [h1, TrimSpace_of_last _ (tokenLine_last ip ts hip hts)]
  obtain ⟨hne, hc⟩ := plainField_spec ip hip
  cases hip2 : ip with
  | nil => exact absurd hip2 hne
  | cons a as =>
    have ha : isSpace a = false := (hc a (by rw [hip2]; exact List.mem_cons_self _ _)).1
    unfold tokenLine
    rw [List.cons_append, List.dropWhile_cons_of_neg (by rw [ha]; exact Bool.false_ne_true)]

theorem tokenLine_no_at (ip : Str) (ts : List Str) (hip : plainField ip = true)
    (hts : ∀ t ∈ ts, plainField t = true) : (tokenLine ip ts).contains '@' = false := by
  rw [Bool.eq_false_iff]
  intro h
  have hm : '@' ∈ tokenLine ip ts := by simpa using h
  rcases mem_tokenLine ip ts '@' hm with h | h | ⟨t, ht, h⟩
  · exact ((plainField_spec ip hip).2 _ h).2.2 rfl
  · revert h; decide
  · exact ((plainField_spec t (hts t ht)).2 _ h).2.2 rfl

theorem tokenLine_no_newline (ip : Str) (ts : List Str) (hip : plainField ip = true)
    (hts : ∀ t ∈ ts, plainField t = true) : '\n' ∉ tokenLine ip ts := by
  intro hm
  rcases mem_tokenLine ip ts '\n' hm with h | h | ⟨t, ht, h⟩
  · have := ((plainField_spec ip hip).2 _ h).1
    revert this; decide
  · revert h; decide
  · have := ((plainField_spec t (hts t ht)).2 _ h).1
    revert this; decide

/-- The records of a line of exact host tokens, from the line itself: the turn
of `parse` yields one record per token, in order. -/
theorem parseLine_tokenLine (L : GoLib) (ip : Str) (ts : List Str) (a : IP)
    (hip : plainField ip = true) (hts : ∀ t ∈ ts, plainField t = true)
    (ha : parseIP L ip = some a) (hstar : ∀ t ∈ ts, t.contains '*' = false) :
    parseLine L (tokenLine ip ts) =
      ts.map (fun t => newRecord a (fun str => ToLower L t == str)) := by
  rw [parseLine_fields L (tokenLine ip ts) ip ts a
    (by rw [lineBody_tokenLine ip ts hip hts]; exact tokenLine_no_at ip ts hip hts)
    (by rw [lineBody_tokenLine ip ts hip hts]; exact Fields_tokenLine ip ts hip hts) ha]
  clear hts
  induction ts with
  | nil => rfl
  | cons t ts ih =>
    rw [List.filterMap_cons, parseField_exact L a t (hstar t (List.mem_cons_self _ _)),
      ih (fun u hu => hstar u (List.mem_cons_of_mem _ hu))]
    rfl

/-- When the line fits the buffer of the scanner, `parse` on the line yields
the records of its tokens. -/
theorem parse_tokenLine_of_fit (L : GoLib) (ip : Str) (ts : List Str) (a : IP)
    (hip : plainField ip = true) (hts : ∀ t ∈ ts, plainField t = true)
    (ha : parseIP L ip = some a) (hstar : ∀ t ∈ ts, t.contains '*' = false)
    (hfit : utf8Len (tokenLine ip ts) ≤ maxLineLen) :
    parse L (tokenLine ip ts) =
      ts.map (fun t => newRecord a (fun str => ToLower L t == str)) := by
  rw [parse_single_line L _ (tokenLine_no_newline ip ts hip hts) hfit,
    parseLine_tokenLine L ip ts a hip hts ha hstar]

/-- When the line fits the buffer of the scanner, `parse` on a line without `@`
whose fields are an IP literal and host tokens without `*` yields the records of
the tokens, in order. -/
theorem parse_exact_tokens_of_fit (L : GoLib) (line ipStr : Str) (tokens : List Str) (ip : IP)
    (hn : '\n' ∉ line) (hfit : utf8Len line ≤ maxLineLen)
    (hat : (lineBody line).contains '@' = false)
    (hf : Fields (lineBody line) = ipStr :: tokens)
    (hip : parseIP L ipStr = some ip)
    (hstar : ∀ t ∈ tokens, t.contains '*' = false) :
    parse L line = tokens.map (fun t => newRecord ip (fun str => ToLower L t == str)) := by
  rw [parse_single_line L line hn hfit, parseLine_fields L line ipStr tokens ip hat hf hip]
  clear hf
  induction tokens with
  | nil => rfl
  | cons t ts ih =>
    rw [List.filterMap_cons, parseField_exact L ip t (hstar t (List.mem_cons_self _ _)),
      ih (fun u hu => hstar u (List.mem_cons_of_mem _ hu))]
    rfl

theorem utf8Len_append (x y : Str) : utf8Len (x ++ y) = utf8Len x + utf8Len y := by
  simp [utf8Len]

theorem utf8Len_tokenLine_replicate (ip t : Str) (k : Nat) :
    utf8Len (tokenLine ip (List.replicate k t)) = utf8Len ip + k * (1 + utf8Len t) := by
  induction k generalizing ip with
  | zero => simp [tokenLine, utf8Len]
  | succ k ih =>
    rw [List.replicate_succ, tokenLine_cons, utf8Len_append]
    have h1 : utf8Len (' ' :: tokenLine t (List.replicate k t)) =
        1 + utf8Len (tokenLine t (List.replicate k t)) := by
      have : Char.utf8Size ' ' = 1 := by decide
      simp [utf8Len, this]
    rw [h1, ih t]
    ring

/-- A line of `k` equal exact tokens that does not fit the buffer: the turn of
`parse` for the line would yield `k` records, and `parse` on the line yields
none. -/
theorem long_tokenLine (L : GoLib) (ip t : Str) (k : Nat) (a : IP)
    (hip : plainField ip = true) (ht : plainField t = true) (ha : parseIP L ip = some a)
    (hstar : t.contains '*' = false)
    (hlong : maxLineLen < utf8Len ip + k * (1 + utf8Len t)) :
    Fields (lineBody (tokenLine ip (List.replicate k t))) = ip :: List.replicate k t ∧
    (parseLine L (tokenLine ip (List.replicate k t))).length = k ∧
    parse L (tokenLine ip (List.replicate k t)) = [] := by
  have hts : ∀ u ∈ List.replicate k t, plainField u = true := by
    intro u hu
    rw [List.eq_of_mem_replicate hu]
    exact ht
  have hst : ∀ u ∈ List.replicate k t, u.contains '*' = false := by
    intro u hu
    rw [List.eq_of_mem_replicate hu]
    exact hstar
  refine ⟨?_, ?_, ?_⟩
  · rw [lineBody_tokenLine ip _ hip hts]
    exact Fields_tokenLine ip _ hip hts
  · rw [parseLine_tokenLine L ip _ a hip hts ha hst, List.length_map, List.length_replicate]
  · apply parse_overlong_last L _ (tokenLine_no_newline ip _ hip hts)
    rw [utf8Len_tokenLine_replicate]
    exact hlong

/-- C8 (divergence): the line made of `1.2.3.4` and 10000 times the token
`abcdefg` has 80007 bytes and does not fit the buffer of the scanner. The IP
literal is valid, the line has no `@`, its fields are the IP literal and the
10000 tokens, none with `*`, and the turn of `parse` for the line would yield
10000 records; but `parse` yields none, because `Scan` returns false before the
first turn. -/
theorem long_token_line_yields_nothing :
    parseIP stdlib "1.2.3.4".data = some [0, 0, 0, 0, 0, 0, 0, 0, 0, 0, 255, 255, 1, 2, 3, 4] ∧
    (tokenLine "1.2.3.4".data (List.replicate 10000 "abcdefg".data)).contains '@' = false ∧
    utf8Len (tokenLine "1.2.3.4".data (List.replicate 10000 "abcdefg".data)) = 80007 ∧
    Fields (lineBody (tokenLine "1.2.3.4".data (List.replicate 10000 "abcdefg".data))) =
      "1.2.3.4".data :: List.replicate 10000 "abcdefg".data ∧
    (parseLine stdlib (tokenLine "1.2.3.4".data (List.replicate 10000 "abcdefg".data))).length =
      10000 ∧
    parse stdlib (tokenLine "1.2.3.4".data (List.replicate 10000 "abcdefg".data)) = [] :=
  ⟨by decide,
    tokenLine_no_at "1.2.3.4".data (List.replicate 10000 "abcdefg".data) (by decide)
      (fun u hu => by rw [List.eq_of_mem_replicate hu]; decide),
    by rw [utf8Len_tokenLine_replicate]; decide,
    long_tokenLine stdlib "1.2.3.4".data "abcdefg".data 10000
      [0, 0, 0, 0, 0, 0, 0, 0, 0, 0, 255, 255, 1, 2, 3, 4] (by decide) (by decide) (by decide)
      (by decide) (by decide)⟩

/-! ## Comments longer than the buffer of the scanner -/

theorem takeWhile_hash (x y : Str) (hx : '#' ∉ x) :
    (x ++ '#' :: y).takeWhile (fun c => c != '#') = x := by
  rw [List.takeWhile_append_of_pos]
  · simp
  · intro c hc
    have : c ≠ '#' := fun h => hx (h ▸ hc)
    simpa using this

theorem utf8Len_replicate_x (k : Nat) : utf8Len (List.replicate k 'x') = k := by
  unfold utf8Len
  rw [List.map_replicate, List.sum_replicate]
  have : Char.utf8Size 'x' = 1 := by decide
  rw [this]
  simp

theorem utf8Len_takeWhile_le (p : Char → Bool) (l : Str) :
    utf8Len (l.takeWhile p) ≤ utf8Len l := by
  conv_rhs => rw [← List.takeWhile_append_dropWhile p l]
  rw [utf8Len_append]
  exact Nat.le_add_right _ _

/-- When the line fits the buffer of the scanner, `parse` on the line yields
the records it yields for the part of the line before the first `#`. -/
theorem parse_comment_cut_of_fit (L : GoLib) (line : Str) (hn : '\n' ∉ line)
    (hfit : utf8Len line ≤ maxLineLen) :
    parse L line = parse L (line.takeWhile (fun c => c != '#')) := by
  rw [parse_single_line L line hn hfit,
    parse_single_line L _ (fun h => hn ((List.takeWhile_sublist _).subset h))
      (Nat.le_trans (utf8Len_takeWhile_le _ line) hfit)]
  unfold parseLine lineBody
  rw [takeWhile_idem]

/-- A line whose comment makes it longer than the buffer: `parse` yields no
record for it, whatever it yields for the part before the `#`. -/
theorem long_comment_line (L : GoLib) (pre : Str) (k : Nat) (hn : '\n' ∉ pre) (hh : '#' ∉ pre)
    (hlong : maxLineLen < utf8Len pre + 1 + k) :
    (pre ++ '#' :: List.replicate k 'x').takeWhile (fun c => c != '#') = pre ∧
    parse L (pre ++ '#' :: List.replicate k 'x') = [] := by
  refine ⟨takeWhile_hash pre _ hh, ?_⟩
  apply parse_overlong_last
  · intro hm
    rcases List.mem_append.mp hm with h | h
    · exact hn h
    · rcases List.mem_cons.mp h with h | h
      · revert h; decide
      · have := List.eq_of_mem_replicate h
        revert this; decide
  · have h1 : utf8Len ('#' :: List.replicate k 'x') = 1 + k := by
      have : Char.utf8Size '#' = 1 := by decide
      have h2 := utf8Len_replicate_x k
      unfold utf8Len at h2 ⊢
      rw [List.map_cons, List.sum_cons, this, h2]
    rw [utf8Len_append, h1]
    omega

theorem long_comment_len (pre : Str) (k : Nat) :
    utf8Len (pre ++ '#' :: List.replicate k 'x') = utf8Len pre + 1 + k := by
  have h1 : utf8Len ('#' :: List.replicate k 'x') = 1 + k := by
    have : Char.utf8Size '#' = 1 := by decide
    have h2 := utf8Len_replicate_x k
    unfold utf8Len at h2 ⊢
    rw [List.map_cons, List.sum_cons, this, h2]
  rw [utf8Len_append, h1]
  omega

/-- C16 (divergence): the line `1.2.3.4 uwu #` followed by 70000 bytes of comment
has 70013 bytes and does not fit the buffer of the scanner: its part before the
first `#` is `1.2.3.4 uwu `, for which `parse` yields one record, and `parse`
yields none for the line, because `Scan` returns false before the first turn. -/
theorem long_comment_drops_records :
    ("1.2.3.4 uwu ".data ++ '#' :: List.replicate 70000 'x').takeWhile (fun c => c != '#') =
      "1.2.3.4 uwu ".data ∧
    utf8Len ("1.2.3.4 uwu ".data ++ '#' :: List.replicate 70000 'x') = 70013 ∧
    (parse stdlib "1.2.3.4 uwu ".data).length = 1 ∧
    parse stdlib ("1.2.3.4 uwu ".data ++ '#' :: List.replicate 70000 'x') = [] :=
  ⟨(long_comment_line stdlib "1.2.3.4 uwu ".data 70000 (by decide) (by decide) (by decide)).1,
   by rw [long_comment_len]; decide,
   by decide,
   (long_comment_line stdlib "1.2.3.4 uwu ".data 70000 (by decide) (by decide) (by decide)).2⟩

end Rehosts
